import Mathlib

/-
  Verification of the tlox tree-walking interpreter (TypeScript sources under
  src/tlox/src and src/unnamed) against its natural-language specification.

  The embedding is shallow and executable:
  * AST node classes (Expr.ts, Stmt.ts) become inductive types.
  * The evaluator (Interpreter.ts, LoxFunction.ts, Environment.ts) becomes a
    fueled state-passing interpreter.  Environments are heap frames held in a
    store (a list indexed by allocation order) so that closures share frames
    by reference, exactly as the JS objects do.  Control-flow unwinds
    (ReturnStop, BreakStop) and RuntimeError are one exception channel, as in
    the source where both are JS `throw`s.
  * Numbers are modelled as integers: every program appearing in the claims
    computes only with small integral values, for which IEEE-754 doubles are
    exact, so no claim depends on non-integral arithmetic.
  * The recursive-descent parser (Parser.ts, first revision in file, i.e. the
    newest: the one with if/while/for and logical operators) becomes a fueled
    parser over a token list.
  * The resolver (second half of Expr.ts) becomes a structural walk carrying
    a scope stack, reported static errors and the calls made to
    interpreter.resolve.

  Fuel is consumed structurally (one unit per recursion level), so all
  functions compute by kernel reduction; with enough fuel the fueled run
  agrees with the source's unbounded recursion.
-/

namespace Lox

/-- Token kinds, from TokenType.enum (as referenced throughout the sources). -/
inductive TokenType where
  | LEFT_PAREN | RIGHT_PAREN | LEFT_BRACE | RIGHT_BRACE
  | COMMA | DOT | MINUS | PLUS | SEMICOLON | SLASH | STAR
  | BANG | BANG_EQUAL | EQUAL | EQUAL_EQUAL
  | GREATER | GREATER_EQUAL | LESS | LESS_EQUAL
  | IDENTIFIER | STRING | NUMBER
  | AND | CLASS | ELSE | FALSE | FUN | FOR | IF | NIL | OR
  | PRINT | RETURN | TRUE | VAR | WHILE | BREAK
  | EOF
deriving DecidableEq

/-- Literal payloads carried by Literal expressions and NUMBER/STRING tokens
    (the `Object` values of Expr.ts / Token.ts); numbers modelled as integers. -/
inductive Lit where
  | num (n : Int)
  | str (s : String)
  | bool (b : Bool)
  | nil
deriving DecidableEq

/-- Token.ts: type, lexeme, literal, line. -/
structure Token where
  type : TokenType
  lexeme : String
  literal : Option Lit
  line : Nat
deriving DecidableEq

/-- Expression nodes (Expr.ts classes).  Lean reserves `variable`, hence the
    trailing underscore on that constructor. -/
inductive Expr where
  | binary (left : Expr) (op : Token) (right : Expr)
  | unary (op : Token) (right : Expr)
  | grouping (expression : Expr)
  | literal (value : Lit)
  | variable_ (name : Token)
  | assign (name : Token) (value : Expr)
  | logical (left : Expr) (op : Token) (right : Expr)
  | call (callee : Expr) (paren : Token) (args : List Expr)

/-- Statement nodes (Stmt.ts classes; the Return class is referenced by the
    resolver and LoxFunction but its Stmt.ts revision is not under src/, so
    its shape follows the spec: `Return{keyword,value?}`).  Lean reserves
    `if`, `while`, `return`, hence the suffixed names. -/
inductive Stmt where
  | expression (e : Expr)
  | print (e : Expr)
  | varDecl (name : Token) (initializer : Option Expr)
  | block (statements : List Stmt)
  | ifS (condition : Expr) (thenBranch : Stmt) (elseBranch : Option Stmt)
  | whileS (condition : Expr) (body : Stmt)
  | breakS
  | funcDecl (name : Token) (params : List Token) (body : List Stmt)
  | returnS (keyword : Token) (value : Option Expr)

/-- Runtime values.  A function value is a reference (index) into the
    interpreter state's table of allocated LoxFunction objects, so `===` on
    callables is identity of the allocation, as in JS. -/
inductive LoxValue where
  | vnil
  | vbool (b : Bool)
  | vnum (n : Int)
  | vstr (s : String)
  | vfun (idx : Nat)
deriving DecidableEq

/-- RuntimeError.ts: a token (for line reporting) and a message. -/
structure RTErr where
  token : Token
  message : String
deriving DecidableEq

/-- The single JS exception channel: RuntimeError, ReturnStop (carrying the
    returned value) and BreakStop. -/
inductive Exc where
  | rte (e : RTErr)
  | ret (v : LoxValue)
  | brk
deriving DecidableEq

/-- Environment.ts: one frame is a name-to-value map (a JS Map: insertion
    order, set = replace or append) plus an optional enclosing frame. -/
structure Frame where
  values : List (String × LoxValue)
  enclosing : Option Nat
deriving DecidableEq

/-- A user function object (LoxFunction of src/unnamed/part_001, the current
    revision): the declaration pieces plus the captured closure frame. -/
structure FunData where
  name : String
  params : List String
  body : List Stmt
  closure : Nat

/-- Interpreter state: the frame store, the allocated function objects, the
    lines written to stdout, and the interpreter's current-environment
    pointer (`this.environment`). -/
structure IState where
  frames : List Frame
  funcs : List FunData
  output : List String
  env : Nat

/-- JS `Map.get`. -/
def mapGet (m : List (String × LoxValue)) (k : String) : Option LoxValue :=
  match m with
  | [] => none
  | (k', v) :: rest => if k' = k then some v else mapGet rest k

/-- JS `Map.has`. -/
def mapHas (m : List (String × LoxValue)) (k : String) : Bool :=
  (mapGet m k).isSome

/-- JS `Map.set`: replace the existing entry or append a new one. -/
def mapSet (m : List (String × LoxValue)) (k : String) (v : LoxValue) :
    List (String × LoxValue) :=
  match m with
  | [] => [(k, v)]
  | (k', v') :: rest =>
      if k' = k then (k, v) :: rest else (k', v') :: mapSet rest k v

def emptyFrame : Frame := ⟨[], none⟩

def getFrame (st : IState) (i : Nat) : Frame :=
  st.frames.getD i emptyFrame

def setFrame (st : IState) (i : Nat) (f : Frame) : IState :=
  { st with frames := st.frames.set i f }

/-- Allocate a fresh frame (a `new Environment(...)`); returns its index. -/
def allocFrame (st : IState) (f : Frame) : IState × Nat :=
  ({ st with frames := st.frames ++ [f] }, st.frames.length)

def pushOut (st : IState) (s : String) : IState :=
  { st with output := st.output ++ [s] }

def undefinedMsg (name : Token) : String :=
  "Undefined variable '" ++ name.lexeme ++ "'."

/-- Environment.get: search this frame then enclosing ancestors.  The fuel
    bounds the chain walk; stores built by the interpreter are acyclic
    (enclosing always points to an older frame), so `st.frames.length` fuel
    always suffices and the fuel-out branch is unreachable there. -/
def envGet (st : IState) : Nat → Nat → Token → Except RTErr LoxValue
  | 0, _, name => .error ⟨name, undefinedMsg name⟩
  | Nat.succ fuel, i, name =>
    match mapGet (getFrame st i).values name.lexeme with
    | some v => .ok v
    | none =>
      match (getFrame st i).enclosing with
      | some j => envGet st fuel j name
      | none => .error ⟨name, undefinedMsg name⟩

/-- Environment.assign: mutate the first frame in the chain holding the name. -/
def envAssign (st : IState) : Nat → Nat → Token → LoxValue →
    IState × Except RTErr Unit
  | 0, _, name, _ => (st, .error ⟨name, undefinedMsg name⟩)
  | Nat.succ fuel, i, name, v =>
    let f := getFrame st i
    if mapHas f.values name.lexeme then
      (setFrame st i { f with values := mapSet f.values name.lexeme v }, .ok ())
    else
      match f.enclosing with
      | some j => envAssign st fuel j name v
      | none => (st, .error ⟨name, undefinedMsg name⟩)

/-- Environment.define: unconditional insert into the current frame. -/
def envDefine (st : IState) (name : String) (v : LoxValue) : IState :=
  let f := getFrame st st.env
  setFrame st st.env { f with values := mapSet f.values name v }

/-- Interpreter.isTruthy: null is false, booleans are themselves, all else true. -/
def isTruthy : LoxValue → Bool
  | .vnil => false
  | .vbool b => b
  | _ => true

/-- Interpreter.isEqual: JS `===` (strict, by variant; callables by identity). -/
def isEqual (a b : LoxValue) : Bool :=
  decide (a = b)

def defaultFun : FunData := ⟨"", [], [], 0⟩

/-- Interpreter.stringify.  On integers JS number toString never ends in ".0",
    so the source's ".0"-stripping branch is vacuous here; it is kept
    faithfully. -/
def stringify (st : IState) : LoxValue → String
  | .vnil => "nil"
  | .vbool b => toString b
  | .vnum n =>
      let t := toString n
      if t.endsWith ".0" then t.dropRight 2 else t
  | .vstr s => s
  | .vfun idx => "<fn " ++ (st.funcs.getD idx defaultFun).name ++ ">"

/-- JS string coercion `String(x)` as used by `+` concatenation and by
    console.log: like stringify except that null prints as "null". -/
def jsToString (st : IState) : LoxValue → String
  | .vnil => "null"
  | v => stringify st v

def litToValue : Lit → LoxValue
  | .num n => .vnum n
  | .str s => .vstr s
  | .bool b => .vbool b
  | .nil => .vnil

/-- checkNumberOperands followed by the numeric operation. -/
def numOp (op : Token) (l r : LoxValue) (f : Int → Int → LoxValue) :
    Except Exc LoxValue :=
  match l, r with
  | .vnum a, .vnum b => .ok (f a b)
  | _, _ => .error (.rte ⟨op, "Operands must be numbers."⟩)

def plusErrMsg : String := "Operands must be two numbers or two strings."

def isNumV : LoxValue → Bool
  | .vnum _ => true
  | _ => false

def isStrV : LoxValue → Bool
  | .vstr _ => true
  | _ => false

/-- Interpreter.visitBinaryExpr's operator dispatch (src/tlox/src/Interpreter.ts
    lines 277-328, the current revision), applied to the two evaluated
    operands.  Note the PLUS case: the source concatenates when both operands
    are strings OR either operand alone is a string (the `||` chain at lines
    289-293), coercing the other operand as JS `+` does; the
    "two numbers or two strings" error is raised only when neither branch
    applies.  Unknown operators fall through to `return null`. -/
def binaryResult (st : IState) (op : Token) (l r : LoxValue) :
    Except Exc LoxValue :=
  match op.type with
  | .MINUS => numOp op l r (fun a b => .vnum (a - b))
  | .PLUS =>
      if isNumV l && isNumV r then
        match l, r with
        | .vnum a, .vnum b => .ok (.vnum (a + b))
        | _, _ => .error (.rte ⟨op, plusErrMsg⟩)
      else if (isStrV l && isStrV r) || isStrV l || isStrV r then
        .ok (.vstr (jsToString st l ++ jsToString st r))
      else
        .error (.rte ⟨op, plusErrMsg⟩)
  | .STAR => numOp op l r (fun a b => .vnum (a * b))
  | .SLASH => numOp op l r (fun a b => .vnum (a / b))
  | .GREATER => numOp op l r (fun a b => .vbool (decide (b < a)))
  | .GREATER_EQUAL => numOp op l r (fun a b => .vbool (decide (b ≤ a)))
  | .LESS => numOp op l r (fun a b => .vbool (decide (a < b)))
  | .LESS_EQUAL => numOp op l r (fun a b => .vbool (decide (a ≤ b)))
  | .BANG_EQUAL => .ok (.vbool (! isEqual l r))
  | .EQUAL_EQUAL => .ok (.vbool (isEqual l r))
  | _ => .ok .vnil

/-- LoxFunction.call's parameter binding loop: define each parameter to the
    corresponding argument in the fresh call frame. -/
def bindParams (params : List String) (args : List LoxValue) :
    List (String × LoxValue) :=
  (params.zip args).foldl (fun m p => mapSet m p.1 p.2) []

/-- The call-frame environment LoxFunction.call creates
    (src/unnamed/part_001 lines 17-20): `new Environment(this.closure)` with
    each parameter defined. -/
def callFrame (f : FunData) (args : List LoxValue) : Frame :=
  ⟨bindParams f.params args, some f.closure⟩

/-- One level of the interpreter: all the mutually recursive operations of
    Interpreter.ts / LoxFunction.ts at a given fuel. -/
structure StepFns where
  evaluate : IState → Expr → IState × Except Exc LoxValue
  evalArgs : IState → List Expr → IState × Except Exc (List LoxValue)
  execute : IState → Stmt → IState × Except Exc Unit
  executeSeq : IState → List Stmt → IState × Except Exc Unit
  callFn : IState → FunData → List LoxValue → IState × LoxValue
  executeBlock : IState → List Stmt → Nat → IState × Except Exc Unit

def fuelTok : Token := ⟨.EOF, "", none, 0⟩

/-- Fuel-exhaustion marker (an artifact of the fueled embedding, unreachable
    on the claims' programs at the fuel used). -/
def fuelErr : Exc := .rte ⟨fuelTok, "out of fuel"⟩

def baseFns : StepFns where
  evaluate := fun st _ => (st, .error fuelErr)
  evalArgs := fun st _ => (st, .error fuelErr)
  execute := fun st _ => (st, .error fuelErr)
  executeSeq := fun st _ => (st, .error fuelErr)
  callFn := fun st _ _ => (st, .vnil)
  executeBlock := fun st _ _ => (st, .error fuelErr)

/-- Modelled from the spec: Interpreter.visitCallExpr is not under src/ (only
    its Resolver visitor and LoxCallable are).  Per spec §4.5 Function call:
    the callee must be callable, else runtime error "Can only call functions
    and classes." at the `)` token; if the argument count differs from the
    arity, "Expected N arguments but got M."; otherwise dispatch to the
    function's call method. -/
def callDispatch (prev : StepFns) (st : IState) (cv : LoxValue) (paren : Token)
    (vs : List LoxValue) : IState × Except Exc LoxValue :=
  match cv with
  | .vfun idx =>
      let f := st.funcs.getD idx defaultFun
      if vs.length = f.params.length then
        let r := prev.callFn st f vs
        (r.1, .ok r.2)
      else
        (st, .error (.rte ⟨paren,
          "Expected " ++ toString f.params.length ++ " arguments but got " ++
            toString vs.length ++ "."⟩))
  | _ => (st, .error (.rte ⟨paren, "Can only call functions and classes."⟩))

/-- Expression evaluation: Interpreter.ts visitLiteralExpr, visitGroupingExpr,
    visitUnaryExpr, visitBinaryExpr, visitVariableExpr (line 238: chain
    `this.environment.get`), visitAssignExpr (lines 224-228), visitLogicalExpr
    (lines 198-208), and the spec-modelled call case (see callDispatch).
    The grouping case reproduces the source bug noted in spec §9:
    `visitGroupingExpr` evaluates the Grouping node itself, so it recurses
    until fuel runs out. -/
def evaluateF (prev : StepFns) (st : IState) : Expr → IState × Except Exc LoxValue
  | .literal v => (st, .ok (litToValue v))
  | .grouping g => prev.evaluate st (.grouping g)
  | .unary op r =>
      let p := prev.evaluate st r
      match p.2 with
      | .error ex => (p.1, .error ex)
      | .ok rv =>
        match op.type with
        | .BANG => (p.1, .ok (.vbool (! isTruthy rv)))
        | .MINUS =>
          match rv with
          | .vnum n => (p.1, .ok (.vnum (-n)))
          | _ => (p.1, .error (.rte ⟨op, "Operand must be a number."⟩))
        | _ => (p.1, .ok .vnil)
  | .binary l op r =>
      let pl := prev.evaluate st l
      match pl.2 with
      | .error ex => (pl.1, .error ex)
      | .ok lv =>
        let pr := prev.evaluate pl.1 r
        match pr.2 with
        | .error ex => (pr.1, .error ex)
        | .ok rv => (pr.1, binaryResult pr.1 op lv rv)
  | .variable_ name =>
      match envGet st st.frames.length st.env name with
      | .ok v => (st, .ok v)
      | .error e => (st, .error (.rte e))
  | .assign name value =>
      let pv := prev.evaluate st value
      match pv.2 with
      | .error ex => (pv.1, .error ex)
      | .ok v =>
        let pa := envAssign pv.1 pv.1.frames.length pv.1.env name v
        match pa.2 with
        | .ok _ => (pa.1, .ok v)
        | .error e => (pa.1, .error (.rte e))
  | .logical l op r =>
      let pl := prev.evaluate st l
      match pl.2 with
      | .error ex => (pl.1, .error ex)
      | .ok lv =>
        if op.type = TokenType.OR then
          if isTruthy lv then (pl.1, .ok lv) else prev.evaluate pl.1 r
        else
          if isTruthy lv then prev.evaluate pl.1 r else (pl.1, .ok lv)
  | .call callee paren args =>
      let pc := prev.evaluate st callee
      match pc.2 with
      | .error ex => (pc.1, .error ex)
      | .ok cv =>
        let pa := prev.evalArgs pc.1 args
        match pa.2 with
        | .error ex => (pa.1, .error ex)
        | .ok vs => callDispatch prev pa.1 cv paren vs

/-- Left-to-right argument evaluation of visitCallExpr. -/
def evalArgsF (prev : StepFns) (st : IState) :
    List Expr → IState × Except Exc (List LoxValue)
  | [] => (st, .ok [])
  | e :: rest =>
      let p := prev.evaluate st e
      match p.2 with
      | .error ex => (p.1, .error ex)
      | .ok v =>
        let ps := prev.evalArgs p.1 rest
        match ps.2 with
        | .error ex => (ps.1, .error ex)
        | .ok vs => (ps.1, .ok (v :: vs))

/-- Modelled from the spec: Interpreter's visitWhileStmt, visitBreakStmt,
    visitFunctionStmt and visitReturnStmt are not under src/ (only their
    Stmt classes and Resolver visitors are).  Per spec §4.5 and §7:
    While loops until the condition is falsy and catches break unwinds;
    Break throws the break unwind; executing a Function statement creates a
    function object capturing the *current* environment as its closure and
    defines the name in the current environment; Return evaluates its
    expression (or nil) and throws the return unwind. -/
def executeModelled (prev : StepFns) (st : IState) : Stmt → IState × Except Exc Unit
  | .whileS c b =>
      let pc := prev.evaluate st c
      match pc.2 with
      | .error ex => (pc.1, .error ex)
      | .ok cv =>
        if isTruthy cv then
          let pb := prev.execute pc.1 b
          match pb.2 with
          | .ok _ => prev.execute pb.1 (.whileS c b)
          | .error .brk => (pb.1, .ok ())
          | .error ex => (pb.1, .error ex)
        else (pc.1, .ok ())
  | .breakS => (st, .error .brk)
  | .funcDecl name params body =>
      let fd : FunData := ⟨name.lexeme, params.map (fun p => p.lexeme), body, st.env⟩
      let st1 := { st with funcs := st.funcs ++ [fd] }
      (envDefine st1 name.lexeme (.vfun st.funcs.length), .ok ())
  | .returnS _ value =>
      match value with
      | some e =>
        let p := prev.evaluate st e
        match p.2 with
        | .ok v => (p.1, .error (.ret v))
        | .error ex => (p.1, .error ex)
      | none => (st, .error (.ret .vnil))
  | _ => (st, .ok ())

/-- Statement execution: Interpreter.ts visitExpressionStmt (lines 242-246 of
    the current revision: it logs every expression statement's value with
    `console.log(value)`), visitPrintStmt, visitVarStmt, visitBlockStmt
    (line 220: `new Environment(this.environment)`), visitIfStmt; while,
    break, function and return dispatch to executeModelled (see there). -/
def executeF (prev : StepFns) (st : IState) : Stmt → IState × Except Exc Unit
  | .expression e =>
      let p := prev.evaluate st e
      match p.2 with
      | .ok v => (pushOut p.1 (jsToString p.1 v), .ok ())
      | .error ex => (p.1, .error ex)
  | .print e =>
      let p := prev.evaluate st e
      match p.2 with
      | .ok v => (pushOut p.1 (stringify p.1 v), .ok ())
      | .error ex => (p.1, .error ex)
  | .varDecl name init =>
      match init with
      | some e =>
        let p := prev.evaluate st e
        match p.2 with
        | .ok v => (envDefine p.1 name.lexeme v, .ok ())
        | .error ex => (p.1, .error ex)
      | none => (envDefine st name.lexeme .vnil, .ok ())
  | .block stmts =>
      let pa := allocFrame st ⟨[], some st.env⟩
      prev.executeBlock pa.1 stmts pa.2
  | .ifS c t e? =>
      let pc := prev.evaluate st c
      match pc.2 with
      | .error ex => (pc.1, .error ex)
      | .ok cv =>
        if isTruthy cv then prev.execute pc.1 t
        else
          match e? with
          | some e => prev.execute pc.1 e
          | none => (pc.1, .ok ())
  | s => executeModelled prev st s

/-- The statement loop shared by Interpreter.interpret and executeBlock. -/
def executeSeqF (prev : StepFns) (st : IState) : List Stmt → IState × Except Exc Unit
  | [] => (st, .ok ())
  | s :: rest =>
      let p := prev.execute st s
      match p.2 with
      | .ok _ => prev.executeSeq p.1 rest
      | .error ex => (p.1, .error ex)

/-- Interpreter.executeBlock (src/tlox/src/Interpreter.ts lines 376-387):
    remember the previous environment, switch to the given one, run the
    statements, and in a `finally` restore the previous environment whatever
    the outcome. -/
def executeBlockF (prev : StepFns) (st : IState) (stmts : List Stmt)
    (envIdx : Nat) : IState × Except Exc Unit :=
  let previous := st.env
  let res := prev.executeSeq { st with env := envIdx } stmts
  ({ res.1 with env := previous }, res.2)

/-- LoxFunction.call (src/unnamed/part_001 lines 17-29, the current revision;
    src/tlox/src/LoxFunction.ts is the earlier revision that enclosed
    interpreter.globals instead of the closure): build the call frame
    enclosing the captured closure, bind parameters, execute the body as a
    block, and `catch (returnValue)`: a ReturnStop yields its value; any
    other thrown value is NOT rethrown — the catch block falls through and
    the function returns null. -/
def callFnF (prev : StepFns) (st : IState) (f : FunData) (args : List LoxValue) :
    IState × LoxValue :=
  let pa := allocFrame st (callFrame f args)
  let pr := prev.executeBlock pa.1 f.body pa.2
  match pr.2 with
  | .error (.ret v) => (pr.1, v)
  | _ => (pr.1, .vnil)

/-- The fueled interpreter: one StepFns per fuel level, each level's
    operations recursing through the previous level. -/
def stepFns : Nat → StepFns
  | 0 => baseFns
  | Nat.succ fuel =>
    let prev := stepFns fuel
    { evaluate := evaluateF prev
      evalArgs := evalArgsF prev
      execute := executeF prev
      executeSeq := executeSeqF prev
      callFn := callFnF prev
      executeBlock := executeBlockF prev }

/-- Initial interpreter state: a single global frame. -/
def initState : IState := ⟨[emptyFrame], [], [], 0⟩

/-- Interpreter.interpret: run the statements; a thrown RuntimeError is
    reported (returned here); any other escaping throw is ignored by the
    `instanceof RuntimeError` check. -/
def interpret (fuel : Nat) (stmts : List Stmt) (st : IState) :
    IState × Option RTErr :=
  let p := (stepFns fuel).executeSeq st stmts
  match p.2 with
  | .error (.rte e) => (p.1, some e)
  | _ => (p.1, none)

def runProgram (fuel : Nat) (stmts : List Stmt) : IState × Option RTErr :=
  interpret fuel stmts initState

def idTok (s : String) : Token := ⟨.IDENTIFIER, s, none, 1⟩

def numLit (n : Int) : Expr := .literal (.num n)

def plusTok : Token := ⟨.PLUS, "+", none, 1⟩

def minusTok : Token := ⟨.MINUS, "-", none, 1⟩

def parenTok : Token := ⟨.RIGHT_PAREN, ")", none, 1⟩

example :
    (runProgram 50 [.varDecl (idTok "a") (some (numLit 1)),
      .print (.assign (idTok "a") (numLit 5))]).1.output = ["5"] := by
  decide

/-! ## Parser (src/tlox/src/Parser.ts, first revision in the file — the
 current one, with if/while/for and the logical operators). -/

/-- Parser state: the `current` index and the messages reported through
    Lox.errorParser. -/
structure PSt where
  current : Nat
  errors : List String
deriving DecidableEq

def eofTok : Token := ⟨.EOF, "", none, 1⟩

def peekT (tokens : List Token) (st : PSt) : Token :=
  tokens.getD st.current eofTok

def previousT (tokens : List Token) (st : PSt) : Token :=
  tokens.getD (st.current - 1) eofTok

def isAtEndT (tokens : List Token) (st : PSt) : Bool :=
  decide ((peekT tokens st).type = TokenType.EOF)

/-- Parser.advance: move unless at end (the consumed token is then
    `previousT`). -/
def advanceSt (tokens : List Token) (st : PSt) : PSt :=
  if isAtEndT tokens st then st else { st with current := st.current + 1 }

def checkT (tokens : List Token) (st : PSt) (t : TokenType) : Bool :=
  if isAtEndT tokens st then false else decide ((peekT tokens st).type = t)

/-- Parser.match over a list of token types. -/
def matchT (tokens : List Token) (st : PSt) (types : List TokenType) :
    PSt × Bool :=
  if types.any (checkT tokens st) then (advanceSt tokens st, true)
  else (st, false)

/-- Lox.errorParser's report format (src/tlox/src/Lox.ts lines 78-85). -/
def fmtErr (token : Token) (msg : String) : String :=
  if token.type = TokenType.EOF then
    "[line " ++ toString token.line ++ "] Error at end: " ++ msg
  else
    "[line " ++ toString token.line ++ "] Error at '" ++ token.lexeme ++ "': " ++ msg

/-- Parser.error: report through Lox.errorParser (the returned ParseError is
    the `Except.error ()` of the caller). -/
def errorT (st : PSt) (token : Token) (msg : String) : PSt :=
  { st with errors := st.errors ++ [fmtErr token msg] }

/-- Parser.consume: advance past the expected token or report and throw. -/
def consumeT (tokens : List Token) (st : PSt) (t : TokenType) (msg : String) :
    PSt × Except Unit Token :=
  if checkT tokens st t then (advanceSt tokens st, .ok (peekT tokens st))
  else (errorT st (peekT tokens st) msg, .error ())

/-- The token types of Parser.synchronize's switch: those beginning a
    statement. -/
def startsStatement : TokenType → Bool
  | .CLASS | .FUN | .VAR | .FOR | .IF | .WHILE | .PRINT | .RETURN => true
  | _ => false

/-- The loop of Parser.synchronize: stop at end of input, after having
    consumed a `;`, or when the next token begins a statement; otherwise
    discard a token and continue.  Fueled; `tokens.length + 1` fuel always
    suffices (each iteration advances `current`). -/
def syncLoop (tokens : List Token) : Nat → PSt → PSt
  | 0, st => st
  | Nat.succ fuel, st =>
    if isAtEndT tokens st then st
    else if (previousT tokens st).type = TokenType.SEMICOLON then st
    else if startsStatement (peekT tokens st).type then st
    else syncLoop tokens fuel (advanceSt tokens st)

/-- Parser.synchronize (src/tlox/src/Parser.ts lines 295-314): discard the
    offending token, then loop. -/
def synchronize (tokens : List Token) (st : PSt) : PSt :=
  syncLoop tokens (tokens.length + 1) (advanceSt tokens st)

/-- One level of the recursive-descent parser: every method of Parser.ts at a
    given fuel.  The `…Loop` fields are the `while` loops of the binary
    productions. -/
structure ParserFns where
  expression : PSt → PSt × Except Unit Expr
  assignment : PSt → PSt × Except Unit Expr
  orE : PSt → PSt × Except Unit Expr
  andE : PSt → PSt × Except Unit Expr
  equality : PSt → PSt × Except Unit Expr
  eqLoop : Expr → PSt → PSt × Except Unit Expr
  comparison : PSt → PSt × Except Unit Expr
  compLoop : Expr → PSt → PSt × Except Unit Expr
  term : PSt → PSt × Except Unit Expr
  termLoop : Expr → PSt → PSt × Except Unit Expr
  factor : PSt → PSt × Except Unit Expr
  factorLoop : Expr → PSt → PSt × Except Unit Expr
  unary : PSt → PSt × Except Unit Expr
  primary : PSt → PSt × Except Unit Expr
  declaration : PSt → PSt × Option Stmt
  varDeclaration : PSt → PSt × Except Unit Stmt
  statement : PSt → PSt × Except Unit Stmt
  forStatement : PSt → PSt × Except Unit Stmt
  whileStatement : PSt → PSt × Except Unit Stmt
  ifStatement : PSt → PSt × Except Unit Stmt
  printStatement : PSt → PSt × Except Unit Stmt
  expressionStatement : PSt → PSt × Except Unit Stmt
  blockStmts : PSt → PSt × Except Unit (List Stmt)
  program : PSt → PSt × List (Option Stmt)

/-- Parser.primary. -/
def primaryF (tokens : List Token) (prev : ParserFns) (st : PSt) :
    PSt × Except Unit Expr :=
  let mF := matchT tokens st [.FALSE]
  if mF.2 then (mF.1, .ok (.literal (.bool false))) else
  let mT := matchT tokens st [.TRUE]
  if mT.2 then (mT.1, .ok (.literal (.bool true))) else
  let mN := matchT tokens st [.NIL]
  if mN.2 then (mN.1, .ok (.literal .nil)) else
  let mI := matchT tokens st [.IDENTIFIER]
  if mI.2 then (mI.1, .ok (.variable_ (previousT tokens mI.1))) else
  let mL := matchT tokens st [.NUMBER, .STRING]
  if mL.2 then (mL.1, .ok (.literal ((previousT tokens mL.1).literal.getD .nil)))
  else
  let mP := matchT tokens st [.LEFT_PAREN]
  if mP.2 then
    let pe := prev.expression mP.1
    match pe.2 with
    | .error e => (pe.1, .error e)
    | .ok inner =>
      let pc := consumeT tokens pe.1 .RIGHT_PAREN "Expect ')' after expression."
      match pc.2 with
      | .ok _ => (pc.1, .ok (.grouping inner))
      | .error _ => (pc.1, .error ())
  else
    (errorT st (peekT tokens st) "Expect expression.", .error ())

/-- Parser.unary. -/
def unaryF (tokens : List Token) (prev : ParserFns) (st : PSt) :
    PSt × Except Unit Expr :=
  let m := matchT tokens st [.BANG, .MINUS]
  if m.2 then
    let op := previousT tokens m.1
    let pr := prev.unary m.1
    match pr.2 with
    | .ok right => (pr.1, .ok (.unary op right))
    | .error e => (pr.1, .error e)
  else prev.primary st

/-- The `while` loop of Parser.factor. -/
def factorLoopF (tokens : List Token) (prev : ParserFns) (e : Expr) (st : PSt) :
    PSt × Except Unit Expr :=
  let m := matchT tokens st [.SLASH, .STAR]
  if m.2 then
    let op := previousT tokens m.1
    let pr := prev.unary m.1
    match pr.2 with
    | .ok right => prev.factorLoop (.binary e op right) pr.1
    | .error er => (pr.1, .error er)
  else (st, .ok e)

/-- Parser.factor. -/
def factorF (prev : ParserFns) (st : PSt) : PSt × Except Unit Expr :=
  let p := prev.unary st
  match p.2 with
  | .ok e => prev.factorLoop e p.1
  | .error er => (p.1, .error er)

/-- The `while` loop of Parser.term. -/
def termLoopF (tokens : List Token) (prev : ParserFns) (e : Expr) (st : PSt) :
    PSt × Except Unit Expr :=
  let m := matchT tokens st [.MINUS, .PLUS]
  if m.2 then
    let op := previousT tokens m.1
    let pr := prev.factor m.1
    match pr.2 with
    | .ok right => prev.termLoop (.binary e op right) pr.1
    | .error er => (pr.1, .error er)
  else (st, .ok e)

/-- Parser.term. -/
def termF (prev : ParserFns) (st : PSt) : PSt × Except Unit Expr :=
  let p := prev.factor st
  match p.2 with
  | .ok e => prev.termLoop e p.1
  | .error er => (p.1, .error er)

/-- The `while` loop of Parser.comparison. -/
def compLoopF (tokens : List Token) (prev : ParserFns) (e : Expr) (st : PSt) :
    PSt × Except Unit Expr :=
  let m := matchT tokens st [.GREATER, .GREATER_EQUAL, .LESS, .LESS_EQUAL]
  if m.2 then
    let op := previousT tokens m.1
    let pr := prev.term m.1
    match pr.2 with
    | .ok right => prev.compLoop (.binary e op right) pr.1
    | .error er => (pr.1, .error er)
  else (st, .ok e)

/-- Parser.comparison. -/
def comparisonF (prev : ParserFns) (st : PSt) : PSt × Except Unit Expr :=
  let p := prev.term st
  match p.2 with
  | .ok e => prev.compLoop e p.1
  | .error er => (p.1, .error er)

/-- The `while` loop of Parser.equality. -/
def eqLoopF (tokens : List Token) (prev : ParserFns) (e : Expr) (st : PSt) :
    PSt × Except Unit Expr :=
  let m := matchT tokens st [.BANG_EQUAL, .EQUAL_EQUAL]
  if m.2 then
    let op := previousT tokens m.1
    let pr := prev.comparison m.1
    match pr.2 with
    | .ok right => prev.eqLoop (.binary e op right) pr.1
    | .error er => (pr.1, .error er)
  else (st, .ok e)

/-- Parser.equality. -/
def equalityF (prev : ParserFns) (st : PSt) : PSt × Except Unit Expr :=
  let p := prev.comparison st
  match p.2 with
  | .ok e => prev.eqLoop e p.1
  | .error er => (p.1, .error er)

/-- Parser.and (src/tlox/src/Parser.ts lines 174-183).  The source's `while`
    loop `return`s from inside its body, so after one `and` operator the
    Logical node is returned immediately and the loop never repeats; the
    faithful rendering is this single conditional. -/
def andEF (tokens : List Token) (prev : ParserFns) (st : PSt) :
    PSt × Except Unit Expr :=
  let p := prev.equality st
  match p.2 with
  | .error er => (p.1, .error er)
  | .ok e =>
    let m := matchT tokens p.1 [.AND]
    if m.2 then
      let op := previousT tokens m.1
      let pr := prev.equality m.1
      match pr.2 with
      | .ok right => (pr.1, .ok (.logical e op right))
      | .error er => (pr.1, .error er)
    else (m.1, .ok e)

/-- Parser.or (src/tlox/src/Parser.ts lines 163-172).  Same early-return
    shape as Parser.and: at most one `or` operator is consumed. -/
def orEF (tokens : List Token) (prev : ParserFns) (st : PSt) :
    PSt × Except Unit Expr :=
  let p := prev.andE st
  match p.2 with
  | .error er => (p.1, .error er)
  | .ok e =>
    let m := matchT tokens p.1 [.OR]
    if m.2 then
      let op := previousT tokens m.1
      let pr := prev.andE m.1
      match pr.2 with
      | .ok right => (pr.1, .ok (.logical e op right))
      | .error er => (pr.1, .error er)
    else (m.1, .ok e)

/-- Parser.assignment: parse the LHS, and when an `=` follows, rewrite a
    Variable LHS to an Assign; otherwise report "Invalid assignment target."
    (not thrown: the source falls through and returns the LHS). -/
def assignmentF (tokens : List Token) (prev : ParserFns) (st : PSt) :
    PSt × Except Unit Expr :=
  let p := prev.orE st
  match p.2 with
  | .error er => (p.1, .error er)
  | .ok e =>
    let m := matchT tokens p.1 [.EQUAL]
    if m.2 then
      let equals := previousT tokens m.1
      let pv := prev.assignment m.1
      match pv.2 with
      | .error er => (pv.1, .error er)
      | .ok value =>
        match e with
        | .variable_ name => (pv.1, .ok (.assign name value))
        | _ => (errorT pv.1 equals "Invalid assignment target.", .ok e)
    else (m.1, .ok e)

/-- Parser.expression. -/
def expressionF (prev : ParserFns) (st : PSt) : PSt × Except Unit Expr :=
  prev.assignment st

/-- Parser.printStatement. -/
def printStatementF (tokens : List Token) (prev : ParserFns) (st : PSt) :
    PSt × Except Unit Stmt :=
  let p := prev.expression st
  match p.2 with
  | .error er => (p.1, .error er)
  | .ok v =>
    let pc := consumeT tokens p.1 .SEMICOLON "Expect ';' after value"
    match pc.2 with
    | .ok _ => (pc.1, .ok (.print v))
    | .error _ => (pc.1, .error ())

/-- Parser.expressionStatement. -/
def expressionStatementF (tokens : List Token) (prev : ParserFns) (st : PSt) :
    PSt × Except Unit Stmt :=
  let p := prev.expression st
  match p.2 with
  | .error er => (p.1, .error er)
  | .ok v =>
    let pc := consumeT tokens p.1 .SEMICOLON "Expect ';' after value"
    match pc.2 with
    | .ok _ => (pc.1, .ok (.expression v))
    | .error _ => (pc.1, .error ())

/-- Parser.varDeclaration. -/
def varDeclarationF (tokens : List Token) (prev : ParserFns) (st : PSt) :
    PSt × Except Unit Stmt :=
  let pn := consumeT tokens st .IDENTIFIER "Expect variable name."
  match pn.2 with
  | .error _ => (pn.1, .error ())
  | .ok name =>
    let m := matchT tokens pn.1 [.EQUAL]
    if m.2 then
      let pi := prev.expression m.1
      match pi.2 with
      | .error _ => (pi.1, .error ())
      | .ok init =>
        let ps := consumeT tokens pi.1 .SEMICOLON "Expect ';' after expression."
        match ps.2 with
        | .ok _ => (ps.1, .ok (.varDecl name (some init)))
        | .error _ => (ps.1, .error ())
    else
      let ps := consumeT tokens m.1 .SEMICOLON "Expect ';' after expression."
      match ps.2 with
      | .ok _ => (ps.1, .ok (.varDecl name none))
      | .error _ => (ps.1, .error ())

/-- Parser.ifStatement. -/
def ifStatementF (tokens : List Token) (prev : ParserFns) (st : PSt) :
    PSt × Except Unit Stmt :=
  let pl := consumeT tokens st .LEFT_PAREN "Expect '(' after 'if'."
  match pl.2 with
  | .error _ => (pl.1, .error ())
  | .ok _ =>
    let pc := prev.expression pl.1
    match pc.2 with
    | .error _ => (pc.1, .error ())
    | .ok cond =>
      let pr := consumeT tokens pc.1 .RIGHT_PAREN "Expect ')' after condition."
      match pr.2 with
      | .error _ => (pr.1, .error ())
      | .ok _ =>
        let pt := prev.statement pr.1
        match pt.2 with
        | .error _ => (pt.1, .error ())
        | .ok thenBranch =>
          let m := matchT tokens pt.1 [.ELSE]
          if m.2 then
            let pe := prev.statement m.1
            match pe.2 with
            | .error _ => (pe.1, .error ())
            | .ok elseBranch =>
              (pe.1, .ok (.ifS cond thenBranch (some elseBranch)))
          else (m.1, .ok (.ifS cond thenBranch none))

/-- Parser.whileStatement. -/
def whileStatementF (tokens : List Token) (prev : ParserFns) (st : PSt) :
    PSt × Except Unit Stmt :=
  let pl := consumeT tokens st .LEFT_PAREN "Expect '(' after 'while'."
  match pl.2 with
  | .error _ => (pl.1, .error ())
  | .ok _ =>
    let pc := prev.expression pl.1
    match pc.2 with
    | .error _ => (pc.1, .error ())
    | .ok cond =>
      let pr := consumeT tokens pc.1 .RIGHT_PAREN "Expect ')' after condition."
      match pr.2 with
      | .error _ => (pr.1, .error ())
      | .ok _ =>
        let pb := prev.statement pr.1
        match pb.2 with
        | .error _ => (pb.1, .error ())
        | .ok body => (pb.1, .ok (.whileS cond body))

/-- Parser.forStatement (src/tlox/src/Parser.ts lines 70-97).  Note the
    increment clause: the source tests `!this.check(SEMICOLON)` — not
    RIGHT_PAREN — before parsing the increment expression, reproduced
    faithfully here. -/
def forStatementF (tokens : List Token) (prev : ParserFns) (st : PSt) :
    PSt × Except Unit Stmt :=
  let pl := consumeT tokens st .LEFT_PAREN "Expect '(' after 'for'."
  match pl.2 with
  | .error _ => (pl.1, .error ())
  | .ok _ =>
    let mS := matchT tokens pl.1 [.SEMICOLON]
    let pInit : PSt × Except Unit (Option Stmt) :=
      if mS.2 then (mS.1, .ok none)
      else
        let mV := matchT tokens pl.1 [.VAR]
        if mV.2 then
          let p := prev.varDeclaration mV.1
          (p.1, p.2.map some)
        else
          let p := prev.expressionStatement pl.1
          (p.1, p.2.map some)
    match pInit.2 with
    | .error _ => (pInit.1, .error ())
    | .ok initOpt =>
      let pCond : PSt × Except Unit (Option Expr) :=
        if checkT tokens pInit.1 .SEMICOLON then (pInit.1, .ok none)
        else
          let p := prev.expression pInit.1
          (p.1, p.2.map some)
      match pCond.2 with
      | .error _ => (pCond.1, .error ())
      | .ok condOpt =>
        let ps := consumeT tokens pCond.1 .SEMICOLON "Expect ';' after condition."
        match ps.2 with
        | .error _ => (ps.1, .error ())
        | .ok _ =>
          let pInc : PSt × Except Unit (Option Expr) :=
            if checkT tokens ps.1 .SEMICOLON then (ps.1, .ok none)
            else
              let p := prev.expression ps.1
              (p.1, p.2.map some)
          match pInc.2 with
          | .error _ => (pInc.1, .error ())
          | .ok incOpt =>
            let pr := consumeT tokens pInc.1 .RIGHT_PAREN
              "Expect ')' after 'for' clauses."
            match pr.2 with
            | .error _ => (pr.1, .error ())
            | .ok _ =>
              let pb := prev.statement pr.1
              match pb.2 with
              | .error _ => (pb.1, .error ())
              | .ok body0 =>
                let body1 :=
                  match incOpt with
                  | some inc => Stmt.block [body0, .expression inc]
                  | none => body0
                let cond :=
                  match condOpt with
                  | some c => c
                  | none => Expr.literal (.bool true)
                let body2 := Stmt.whileS cond body1
                let body3 :=
                  match initOpt with
                  | some ini => Stmt.block [ini, body2]
                  | none => body2
                (pb.1, .ok body3)

/-- Parser.block's collection loop.  The source pushes `this.declaration()`
    results — possibly null — into the array; a null inside a block is never
    executed (hadError blocks interpretation), and no claim exercises it, so
    it is omitted from the collected list here. -/
def blockStmtsF (tokens : List Token) (prev : ParserFns) (st : PSt) :
    PSt × Except Unit (List Stmt) :=
  if ! checkT tokens st .RIGHT_BRACE && ! isAtEndT tokens st then
    let pd := prev.declaration st
    let pr := prev.blockStmts pd.1
    match pr.2 with
    | .error _ => (pr.1, .error ())
    | .ok rest =>
      match pd.2 with
      | some s => (pr.1, .ok (s :: rest))
      | none => (pr.1, .ok rest)
  else
    let pc := consumeT tokens st .RIGHT_BRACE "Expect '\x7d' after block."
    match pc.2 with
    | .ok _ => (pc.1, .ok [])
    | .error _ => (pc.1, .error ())

/-- Parser.statement. -/
def statementF (tokens : List Token) (prev : ParserFns) (st : PSt) :
    PSt × Except Unit Stmt :=
  let mP := matchT tokens st [.PRINT]
  if mP.2 then prev.printStatement mP.1 else
  let mB := matchT tokens st [.LEFT_BRACE]
  if mB.2 then
    let p := prev.blockStmts mB.1
    match p.2 with
    | .ok ss => (p.1, .ok (.block ss))
    | .error e => (p.1, .error e)
  else
  let mI := matchT tokens st [.IF]
  if mI.2 then prev.ifStatement mI.1 else
  let mW := matchT tokens st [.WHILE]
  if mW.2 then prev.whileStatement mW.1 else
  let mF := matchT tokens st [.FOR]
  if mF.2 then prev.forStatement mF.1 else
  prev.expressionStatement st

/-- Parser.declaration: try var-declaration or statement; on a thrown
    ParseError synchronize and return null. -/
def declarationF (tokens : List Token) (prev : ParserFns) (st : PSt) :
    PSt × Option Stmt :=
  let m := matchT tokens st [.VAR]
  let p := if m.2 then prev.varDeclaration m.1 else prev.statement st
  match p.2 with
  | .ok s => (p.1, some s)
  | .error _ => (synchronize tokens p.1, none)

/-- The loop of Parser.parse: `while (!isAtEnd()) statements.push(declaration())`
    — null results are pushed too. -/
def programF (tokens : List Token) (prev : ParserFns) (st : PSt) :
    PSt × List (Option Stmt) :=
  if isAtEndT tokens st then (st, [])
  else
    let pd := prev.declaration st
    let pr := prev.program pd.1
    (pr.1, pd.2 :: pr.2)

def baseParserFns : ParserFns where
  expression := fun st => (st, .error ())
  assignment := fun st => (st, .error ())
  orE := fun st => (st, .error ())
  andE := fun st => (st, .error ())
  equality := fun st => (st, .error ())
  eqLoop := fun _ st => (st, .error ())
  comparison := fun st => (st, .error ())
  compLoop := fun _ st => (st, .error ())
  term := fun st => (st, .error ())
  termLoop := fun _ st => (st, .error ())
  factor := fun st => (st, .error ())
  factorLoop := fun _ st => (st, .error ())
  unary := fun st => (st, .error ())
  primary := fun st => (st, .error ())
  declaration := fun st => (st, none)
  varDeclaration := fun st => (st, .error ())
  statement := fun st => (st, .error ())
  forStatement := fun st => (st, .error ())
  whileStatement := fun st => (st, .error ())
  ifStatement := fun st => (st, .error ())
  printStatement := fun st => (st, .error ())
  expressionStatement := fun st => (st, .error ())
  blockStmts := fun st => (st, .error ())
  program := fun st => (st, [])

/-- The fueled parser, one ParserFns per fuel level. -/
def parserFns (tokens : List Token) : Nat → ParserFns
  | 0 => baseParserFns
  | Nat.succ fuel =>
    let prev := parserFns tokens fuel
    { expression := expressionF prev
      assignment := assignmentF tokens prev
      orE := orEF tokens prev
      andE := andEF tokens prev
      equality := equalityF prev
      eqLoop := eqLoopF tokens prev
      comparison := comparisonF prev
      compLoop := compLoopF tokens prev
      term := termF prev
      termLoop := termLoopF tokens prev
      factor := factorF prev
      factorLoop := factorLoopF tokens prev
      unary := unaryF tokens prev
      primary := primaryF tokens prev
      declaration := declarationF tokens prev
      varDeclaration := varDeclarationF tokens prev
      statement := statementF tokens prev
      forStatement := forStatementF tokens prev
      whileStatement := whileStatementF tokens prev
      ifStatement := ifStatementF tokens prev
      printStatement := printStatementF tokens prev
      expressionStatement := expressionStatementF tokens prev
      blockStmts := blockStmtsF tokens prev
      program := programF tokens prev }

/-- Parser.parse from a fresh state.  200 fuel levels cover every program in
    this file with a wide margin (one level per recursive-descent step). -/
def parseProgram (tokens : List Token) : PSt × List (Option Stmt) :=
  (parserFns tokens 200).program ⟨0, []⟩

def semiTok : Token := ⟨.SEMICOLON, ";", none, 1⟩

def numTok (n : Int) : Token := ⟨.NUMBER, toString n, some (.num n), 1⟩

def orTok : Token := ⟨.OR, "or", none, 1⟩

def andTok : Token := ⟨.AND, "and", none, 1⟩

example :
    (parseProgram [idTok "a", orTok, idTok "b", semiTok, eofTok]).2 =
      [some (.expression (.logical (.variable_ (idTok "a")) orTok
        (.variable_ (idTok "b"))))] := rfl

example :
    parseProgram [idTok "a", orTok, idTok "b", orTok, idTok "c", semiTok, eofTok] =
      (⟨6, ["[line 1] Error at 'or': Expect ';' after value"]⟩, [none]) := rfl

/-! ## Resolver (the Resolver class in the second half of src/tlox/src/Expr.ts). -/

/-- A resolver scope: a JS Map from name to "defined" flag; `scopes` pushes to
    the END of the array, so the innermost scope is the LAST element. -/
abbrev Scope := List (String × Bool)

def scopeGet (s : Scope) (k : String) : Option Bool :=
  match s with
  | [] => none
  | (k', b) :: rest => if k' = k then some b else scopeGet rest k

def scopeHas (s : Scope) (k : String) : Bool :=
  (scopeGet s k).isSome

def scopeSet (s : Scope) (k : String) (b : Bool) : Scope :=
  match s with
  | [] => [(k, b)]
  | (k', b') :: rest =>
      if k' = k then (k, b) :: rest else (k', b') :: scopeSet rest k b

/-- Resolver state: the scope stack, the static errors reported through
    Lox.errorParser (token and message), the calls made to
    interpreter.resolve (name token and depth, in call order), and the
    currentFunction marker (FunctionType.FUNCTION as a Bool). -/
structure RSt where
  scopes : List Scope
  errors : List (Token × String)
  calls : List (Token × Nat)
  inFunction : Bool
deriving DecidableEq

/-- Resolver.resolveLocal's loop (src/tlox/src/Expr.ts lines 245-251): for i
    from scopes.length-1 down to 0, whenever scopes[i] has the name it calls
    interpreter.resolve(expr, scopes.length-1-i) — with no break or return
    after a hit.  This returns the depths passed to interpreter.resolve, in
    call order (equivalently: all distances d whose scope contains the name,
    innermost first). -/
def resolveLocalCalls (scopes : List Scope) (lex : String) : List Nat :=
  (List.range scopes.length).filter
    (fun d => scopeHas (scopes.getD (scopes.length - 1 - d) []) lex)

/-- Modelled from the spec: Interpreter.resolve — the resolution-table insert
    — is not under src/ (only the resolver calls it).  Spec §3 defines the
    table as a "mapping from expression-node identity to non-negative integer
    depth" and §4.3 says "record `(node → d)` in the resolution table", i.e.
    a map insert that overwrites the node's entry. -/
def resolveInsert (_entry : Option Nat) (d : Nat) : Option Nat :=
  some d

/-- The table entry a single node ends up with after resolveLocal ran for it:
    every recorded depth applied to the entry in call order. -/
def tableEntryAfter (scopes : List Scope) (lex : String) : Option Nat :=
  (resolveLocalCalls scopes lex).foldl resolveInsert none

/-- The distance to the FIRST (innermost) scope containing the name — what
    the claim says the table ends up holding. -/
def innermostHit (scopes : List Scope) (lex : String) : Option Nat :=
  (List.range scopes.length).find?
    (fun d => scopeHas (scopes.getD (scopes.length - 1 - d) []) lex)

def beginScopeR (st : RSt) : RSt :=
  { st with scopes := st.scopes ++ [[]] }

def endScopeR (st : RSt) : RSt :=
  { st with scopes := st.scopes.dropLast }

def rError (st : RSt) (tok : Token) (msg : String) : RSt :=
  { st with errors := st.errors ++ [(tok, msg)] }

/-- Resolver.declare: no-op outside any scope; inside, report a
    redeclaration and (unconditionally) mark the name undefined. -/
def declareR (st : RSt) (name : Token) : RSt :=
  if st.scopes.length = 0 then st
  else
    let scope := st.scopes.getD (st.scopes.length - 1) []
    let st1 :=
      if scopeHas scope name.lexeme then
        rError st name "Already a variable with this name in this scope."
      else st
    { st1 with
      scopes := st1.scopes.set (st1.scopes.length - 1)
        (scopeSet scope name.lexeme false) }

/-- Resolver.define. -/
def defineR (st : RSt) (name : Token) : RSt :=
  if st.scopes.length = 0 then st
  else
    let scope := st.scopes.getD (st.scopes.length - 1) []
    { st with
      scopes := st.scopes.set (st.scopes.length - 1)
        (scopeSet scope name.lexeme true) }

def recordResolveLocal (st : RSt) (name : Token) : RSt :=
  { st with
    calls := st.calls ++
      (resolveLocalCalls st.scopes name.lexeme).map (fun d => (name, d)) }

def ownInitMsg : String :=
  "Cannot read local variable in its own initialization."

/-- Resolver.visitVariableExpr (src/tlox/src/Expr.ts lines 132-144): when the
    scope stack is nonempty and the innermost scope maps the name to `false`
    (a JS `== false`, so a missing entry — `undefined` — does not trigger it),
    report the own-initializer error; then resolveLocal.  Note the source's
    message ends in "initialization.", not "initializer.". -/
def visitVariableExprR (st : RSt) (name : Token) : RSt :=
  let st1 :=
    if st.scopes.length > 0 ∧
        scopeGet (st.scopes.getD (st.scopes.length - 1) []) name.lexeme =
          some false then
      rError st name ownInitMsg
    else st
  recordResolveLocal st1 name

/-- One level of the resolver walk. -/
structure ResolverFns where
  rExpr : RSt → Expr → RSt
  rArgs : RSt → List Expr → RSt
  rStmt : RSt → Stmt → RSt
  rStmts : RSt → List Stmt → RSt

/-- Resolver expression visitors (src/tlox/src/Expr.ts): visitBinaryExpr,
    visitUnaryExpr, visitGroupingExpr, visitLiteralExpr, visitVariableExpr,
    visitAssignExpr (resolve the value, then resolveLocal on the name),
    visitLogicalExpr, visitCallExpr. -/
def rExprF (prev : ResolverFns) (st : RSt) : Expr → RSt
  | .binary l _ r => prev.rExpr (prev.rExpr st l) r
  | .unary _ r => prev.rExpr st r
  | .grouping g => prev.rExpr st g
  | .literal _ => st
  | .variable_ name => visitVariableExprR st name
  | .assign name value => recordResolveLocal (prev.rExpr st value) name
  | .logical l _ r => prev.rExpr (prev.rExpr st l) r
  | .call callee _ args => prev.rArgs (prev.rExpr st callee) args

def rArgsF (prev : ResolverFns) (st : RSt) : List Expr → RSt
  | [] => st
  | e :: rest => prev.rArgs (prev.rExpr st e) rest

/-- Resolver statement visitors: visitBlockStmt (push scope, resolve, pop),
    visitVarStmt (declare, resolve initializer, define), visitFunctionStmt
    (declare+define the name, then resolveFunction: set the FUNCTION marker,
    push a scope, declare+define the parameters, resolve the body, pop,
    restore the marker), visitExpressionStmt, visitIfStmt, visitPrintStmt,
    visitReturnStmt (error if outside a function), visitWhileStmt,
    visitBreakStmt. -/
def rStmtF (prev : ResolverFns) (st : RSt) : Stmt → RSt
  | .block stmts => endScopeR (prev.rStmts (beginScopeR st) stmts)
  | .varDecl name init =>
      let st1 := declareR st name
      let st2 :=
        match init with
        | some e => prev.rExpr st1 e
        | none => st1
      defineR st2 name
  | .expression e => prev.rExpr st e
  | .print e => prev.rExpr st e
  | .ifS c t e? =>
      let st1 := prev.rStmt (prev.rExpr st c) t
      match e? with
      | some e => prev.rStmt st1 e
      | none => st1
  | .whileS c b => prev.rStmt (prev.rExpr st c) b
  | .breakS => st
  | .funcDecl name params body =>
      let st1 := defineR (declareR st name) name
      let enclosing := st1.inFunction
      let st2 := beginScopeR { st1 with inFunction := true }
      let st3 := params.foldl (fun s p => defineR (declareR s p) p) st2
      let st4 := endScopeR (prev.rStmts st3 body)
      { st4 with inFunction := enclosing }
  | .returnS keyword value =>
      let st1 :=
        if st.inFunction then st
        else rError st keyword "Can't return from top-level code."
      match value with
      | some e => prev.rExpr st1 e
      | none => st1

def rStmtsF (prev : ResolverFns) (st : RSt) : List Stmt → RSt
  | [] => st
  | s :: rest => prev.rStmts (prev.rStmt st s) rest

def baseResolverFns : ResolverFns where
  rExpr := fun st _ => st
  rArgs := fun st _ => st
  rStmt := fun st _ => st
  rStmts := fun st _ => st

/-- The fueled resolver walk. -/
def resolverFns : Nat → ResolverFns
  | 0 => baseResolverFns
  | Nat.succ fuel =>
    let prev := resolverFns fuel
    { rExpr := rExprF prev
      rArgs := rArgsF prev
      rStmt := rStmtF prev
      rStmts := rStmtsF prev }

def initRSt : RSt := ⟨[], [], [], false⟩

/-- Resolver.resolveAll from a fresh state (50 fuel levels cover every
    program in this file). -/
def resolveProgram (stmts : List Stmt) : RSt :=
  (resolverFns 50).rStmts initRSt stmts

/-! ## Concrete tokens and programs used to settle the claims. -/

def aTok : Token := idTok "a"

def iTok : Token := idTok "i"

def retTok : Token := ⟨.RETURN, "return", none, 1⟩

def forTok : Token := ⟨.FOR, "for", none, 1⟩

def lparenTok : Token := ⟨.LEFT_PAREN, "(", none, 1⟩

def varTok : Token := ⟨.VAR, "var", none, 1⟩

def eqTok : Token := ⟨.EQUAL, "=", none, 1⟩

def ltTok : Token := ⟨.LESS, "<", none, 1⟩

def printTok : Token := ⟨.PRINT, "print", none, 1⟩

/-- The nested-shadowing program `{ var a = 1; { var a = 2; a; } }`: the
    reference to `a` sits in a scope chain where both the innermost and the
    enclosing scope contain `a`. -/
def shadowProg : List Stmt :=
  [.block [.varDecl aTok (some (numLit 1)),
    .block [.varDecl aTok (some (numLit 2)),
      .expression (.variable_ aTok)]]]

/-- spec §8 scenario 5: `var a = "outer"; { var a = a; }`. -/
def ownInitProg : List Stmt :=
  [.varDecl aTok (some (.literal (.str "outer"))),
   .block [.varDecl aTok (some (.variable_ aTok))]]

/-- `var i = 0; fun inc() { i = i + 1; return i; }` (the claim's counter). -/
def counterDecls : List Stmt :=
  [.varDecl iTok (some (numLit 0)),
   .funcDecl (idTok "inc") []
     [.expression (.assign iTok (.binary (.variable_ iTok) plusTok (numLit 1))),
      .returnS retTok (some (.variable_ iTok))]]

def incCall : Expr := .call (.variable_ (idTok "inc")) parenTok []

/-- spec §8 scenario 3: `fun makeCounter() { var i = 0; fun count() { ... }
    return count; } var c = makeCounter();` — here `i` is local to
    makeCounter, so the calls to `c` observe it only through the captured
    closure (an interpreter enclosing call frames to globals instead would
    fail with "Undefined variable 'i'."). -/
def makeCounterDecls : List Stmt :=
  [.funcDecl (idTok "makeCounter") []
     [.varDecl iTok (some (numLit 0)),
      .funcDecl (idTok "count") []
        [.expression (.assign iTok (.binary (.variable_ iTok) plusTok (numLit 1))),
         .returnS retTok (some (.variable_ iTok))],
      .returnS retTok (some (.variable_ (idTok "count")))],
   .varDecl (idTok "c") (some (.call (.variable_ (idTok "makeCounter")) parenTok []))]

def cCall : Expr := .call (.variable_ (idTok "c")) parenTok []

/-- `fun f() { 1 - "a"; }` — the body raises RuntimeError
    "Operands must be numbers.". -/
def swallowDecls : List Stmt :=
  [.funcDecl (idTok "f") []
     [.expression (.binary (numLit 1) minusTok (.literal (.str "a")))]]

def fCall : Expr := .call (.variable_ (idTok "f")) parenTok []

/-- `fun g() { return 7; }`. -/
def retDecls : List Stmt :=
  [.funcDecl (idTok "g") [] [.returnS retTok (some (numLit 7))]]

def gCall : Expr := .call (.variable_ (idTok "g")) parenTok []

/-- `fun h() { }`. -/
def noRetDecls : List Stmt :=
  [.funcDecl (idTok "h") [] []]

def hCall : Expr := .call (.variable_ (idTok "h")) parenTok []

/-- Tokens of `for (var i = 0; i < 3; i = i + 1) print i;`. -/
def forFullToks : List Token :=
  [forTok, lparenTok, varTok, iTok, eqTok, numTok 0, semiTok,
   iTok, ltTok, numTok 3, semiTok,
   iTok, eqTok, iTok, plusTok, numTok 1, parenTok,
   printTok, iTok, semiTok, eofTok]

/-- The desugared statement the source produces for forFullToks:
    Block{[init, While{cond, Block{[body, Expression(increment)]}}]}. -/
def forFullExpected : Stmt :=
  .block [.varDecl iTok (some (.literal (.num 0))),
    .whileS (.binary (.variable_ iTok) ltTok (.literal (.num 3)))
      (.block [.print (.variable_ iTok),
        .expression (.assign iTok
          (.binary (.variable_ iTok) plusTok (.literal (.num 1))))])]

/-- Tokens of `for (var i = 0; i < 3;) print i;` — an empty increment
    clause. -/
def forNoIncToks : List Token :=
  [forTok, lparenTok, varTok, iTok, eqTok, numTok 0, semiTok,
   iTok, ltTok, numTok 3, semiTok, parenTok,
   printTok, iTok, semiTok, eofTok]

/-- Tokens of `a or b or c;`. -/
def orChainToks : List Token :=
  [idTok "a", orTok, idTok "b", orTok, idTok "c", semiTok, eofTok]

/-- Tokens of `a and b and c;`. -/
def andChainToks : List Token :=
  [idTok "a", andTok, idTok "b", andTok, idTok "c", semiTok, eofTok]

/-- Tokens of `a or b;`. -/
def orSingleToks : List Token :=
  [idTok "a", orTok, idTok "b", semiTok, eofTok]

/-- Tokens of `+; print 1;` — the first declaration fails to parse. -/
def c8Toks : List Token :=
  [plusTok, semiTok, printTok, numTok 1, semiTok, eofTok]

/-- `{ var a = 1; 1 - "a"; }` — a block whose second statement raises a
    runtime error. -/
def blockErrProg : List Stmt :=
  [.block [.varDecl aTok (some (numLit 1)),
    .expression (.binary (numLit 1) minusTok (.literal (.str "a")))]]

/-- `while (true) { break; } print 9;` — a block left by a break unwind. -/
def whileBreakProg : List Stmt :=
  [.whileS (.literal (.bool true)) (.block [.breakS]), .print (numLit 9)]

/-! ## List and environment helper lemmas. -/

theorem listGetD_of_le {α : Type} (l : List α) (d : α) (i : Nat)
    (h : l.length ≤ i) : l.getD i d = d := by
  induction l generalizing i with
  | nil => simp [List.getD]
  | cons x xs ih =>
    cases i with
    | zero => simp at h
    | succ i => simpa [List.getD] using ih i (Nat.le_of_succ_le_succ h)

theorem listGetD_set_self {α : Type} (l : List α) (i : Nat) (a d : α)
    (h : i < l.length) : (l.set i a).getD i d = a := by
  induction l generalizing i with
  | nil => simp at h
  | cons x xs ih =>
    cases i with
    | zero => simp [List.set, List.getD]
    | succ i =>
      simpa [List.set, List.getD] using ih i (Nat.lt_of_succ_lt_succ h)

theorem listGetD_set_ne {α : Type} (l : List α) (i k : Nat) (a d : α)
    (h : ¬ i = k) : (l.set i a).getD k d = l.getD k d := by
  induction l generalizing i k with
  | nil => simp [List.set]
  | cons x xs ih =>
    cases i with
    | zero =>
      cases k with
      | zero => exact absurd rfl h
      | succ k => simp [List.set, List.getD]
    | succ i =>
      cases k with
      | zero => simp [List.set, List.getD]
      | succ k =>
        simpa [List.set, List.getD] using ih i k (fun hh => h (by rw [hh]))

theorem mapGet_mapSet_self (m : List (String × LoxValue)) (k : String)
    (v : LoxValue) : mapGet (mapSet m k v) k = some v := by
  induction m with
  | nil => simp [mapSet, mapGet]
  | cons p rest ih =>
    by_cases h : p.1 = k
    · simp [mapSet, mapGet, h]
    · simp [mapSet, mapGet, h, ih]

theorem mapGet_of_not_has (m : List (String × LoxValue)) (k : String)
    (h : mapHas m k = false) : mapGet m k = none := by
  unfold mapHas at h
  cases hg : mapGet m k with
  | none => rfl
  | some v => rw [hg] at h; simp at h

/-- envAssign never changes the env pointer, the number of frames, the
    function table or the output. -/
theorem envAssign_preserves (st : IState) :
    ∀ (fuel i : Nat) (name : Token) (v : LoxValue),
      (envAssign st fuel i name v).1.env = st.env ∧
      (envAssign st fuel i name v).1.frames.length = st.frames.length ∧
      (envAssign st fuel i name v).1.funcs = st.funcs ∧
      (envAssign st fuel i name v).1.output = st.output := by
  intro fuel
  induction fuel with
  | zero => intro i name v; exact ⟨rfl, rfl, rfl, rfl⟩
  | succ fuel ih =>
    intro i name v
    by_cases h : mapHas (getFrame st i).values name.lexeme
    · simp [envAssign, h, setFrame]
    · simp only [envAssign, h, if_neg, Bool.false_eq_true, if_false]
      cases he : (getFrame st i).enclosing with
      | some j => simpa [he] using ih j name v
      | none => simp [he]

/-- Frames that do not contain the assigned name are untouched by envAssign. -/
theorem envAssign_preserves_absent (st : IState) :
    ∀ (fuel i : Nat) (name : Token) (v : LoxValue) (k : Nat),
      mapHas (getFrame st k).values name.lexeme = false →
      getFrame (envAssign st fuel i name v).1 k = getFrame st k := by
  intro fuel
  induction fuel with
  | zero => intro i name v k _; rfl
  | succ fuel ih =>
    intro i name v k hk
    by_cases h : mapHas (getFrame st i).values name.lexeme
    · have hik : ¬ i = k := by
        intro he; rw [he, hk] at h; simp at h
      have heq : envAssign st (fuel + 1) i name v =
          (setFrame st i
            { getFrame st i with
              values := mapSet (getFrame st i).values name.lexeme v }, .ok ()) := by
        simp [envAssign, h]
      rw [heq]
      exact listGetD_set_ne st.frames i k _ emptyFrame hik
    · cases he : (getFrame st i).enclosing with
      | some j =>
        have heq : envAssign st (fuel + 1) i name v =
            envAssign st fuel j name v := by
          simp [envAssign, h, he]
        rw [heq]
        exact ih j name v k hk
      | none =>
        have heq : envAssign st (fuel + 1) i name v =
            (st, .error ⟨name, undefinedMsg name⟩) := by
          simp [envAssign, h, he]
        rw [heq]

/-- After a successful envAssign the same chain walk reads back the assigned
    value: the first frame holding the name is exactly the mutated one. -/
theorem envAssign_get (st : IState) :
    ∀ (fuel i : Nat) (name : Token) (v : LoxValue) (st' : IState),
      envAssign st fuel i name v = (st', .ok ()) →
      envGet st' fuel i name = .ok v := by
  intro fuel
  induction fuel with
  | zero => intro i name v st' h; simp [envAssign] at h
  | succ fuel ih =>
    intro i name v st' h
    by_cases hh : mapHas (getFrame st i).values name.lexeme
    · have heq : envAssign st (fuel + 1) i name v =
          (setFrame st i
            { getFrame st i with
              values := mapSet (getFrame st i).values name.lexeme v }, .ok ()) := by
        simp [envAssign, hh]
      rw [heq] at h
      have hlt : i < st.frames.length := by
        by_contra hc
        push_neg at hc
        have hemp : getFrame st i = emptyFrame :=
          listGetD_of_le st.frames emptyFrame i hc
        rw [hemp] at hh
        simp [emptyFrame, mapHas, mapGet] at hh
      have hst' : st' = setFrame st i
          { getFrame st i with
            values := mapSet (getFrame st i).values name.lexeme v } :=
        (congrArg Prod.fst h).symm
      have hfr : getFrame st' i =
          { getFrame st i with
            values := mapSet (getFrame st i).values name.lexeme v } := by
        rw [hst']
        exact listGetD_set_self st.frames i _ emptyFrame hlt
      simp only [envGet]
      rw [hfr]
      simp [mapGet_mapSet_self]
    · have hb : mapHas (getFrame st i).values name.lexeme = false := by
        simpa using hh
      cases he : (getFrame st i).enclosing with
      | some j =>
        have heq : envAssign st (fuel + 1) i name v =
            envAssign st fuel j name v := by
          simp [envAssign, hh, he]
        rw [heq] at h
        have hg := ih j name v st' h
        have hfr : getFrame st' i = getFrame st i := by
          have h2 := envAssign_preserves_absent st fuel j name v i hb
          rw [h] at h2
          simpa using h2
        have hnone : mapGet (getFrame st' i).values name.lexeme = none := by
          rw [hfr]; exact mapGet_of_not_has _ _ hb
        have hen : (getFrame st' i).enclosing = some j := by rw [hfr]; exact he
        simp only [envGet]
        rw [hnone, hen]
        exact hg
      | none =>
        have heq : envAssign st (fuel + 1) i name v =
            (st, .error ⟨name, undefinedMsg name⟩) := by
          simp [envAssign, hh, he]
        rw [heq] at h
        exact absurd (congrArg Prod.snd h) (by simp)

theorem listGetD_append_left {α : Type} (l l' : List α) (i : Nat) (d : α)
    (h : i < l.length) : (l ++ l').getD i d = l.getD i d := by
  induction l generalizing i with
  | nil => simp at h
  | cons x xs ih =>
    cases i with
    | zero => simp [List.getD]
    | succ i => simpa [List.getD] using ih i (Nat.lt_of_succ_lt_succ h)

theorem listGetD_append_self {α : Type} (l : List α) (a d : α) :
    (l ++ [a]).getD l.length d = a := by
  induction l with
  | nil => simp [List.getD]
  | cons x xs ih => simpa only [List.cons_append, List.length_cons, List.getD] using ih

/-- The execution invariant behind the closure claims: frames are only ever
    appended (never dropped), and the enclosing link of every frame that
    already existed is never changed — JS Environment objects fix their
    enclosing handle at construction and only their value maps mutate. -/
def framesGrow (st st' : IState) : Prop :=
  st.frames.length ≤ st'.frames.length ∧
  ∀ i, i < st.frames.length →
    (getFrame st' i).enclosing = (getFrame st i).enclosing

theorem framesGrow_of_frames_eq {st st' : IState}
    (h : st'.frames = st.frames) : framesGrow st st' := by
  constructor
  · rw [h]
  · intro i _; unfold getFrame; rw [h]

theorem framesGrow_refl (st : IState) : framesGrow st st :=
  framesGrow_of_frames_eq rfl

theorem framesGrow_trans {s1 s2 s3 : IState} (h1 : framesGrow s1 s2)
    (h2 : framesGrow s2 s3) : framesGrow s1 s3 := by
  refine ⟨Nat.le_trans h1.1 h2.1, fun i hi => ?_⟩
  rw [h2.2 i (Nat.lt_of_lt_of_le hi h1.1), h1.2 i hi]

theorem framesGrow_setFrame (st : IState) (i : Nat) (f : Frame)
    (h : f.enclosing = (getFrame st i).enclosing) :
    framesGrow st (setFrame st i f) := by
  constructor
  · simp [setFrame]
  · intro k _
    by_cases hk : i = k
    · subst hk
      by_cases hlt : i < st.frames.length
      · have : getFrame (setFrame st i f) i = f :=
          listGetD_set_self st.frames i f emptyFrame hlt
        rw [this, h]
      · push_neg at hlt
        unfold getFrame setFrame
        rw [List.set_eq_of_length_le hlt]
    · have : getFrame (setFrame st i f) k = getFrame st k :=
        listGetD_set_ne st.frames i k f emptyFrame hk
      rw [this]

theorem framesGrow_envDefine (st : IState) (name : String) (v : LoxValue) :
    framesGrow st (envDefine st name v) :=
  framesGrow_setFrame st st.env _ rfl

theorem framesGrow_envAssign (st : IState) :
    ∀ (fuel i : Nat) (name : Token) (v : LoxValue),
      framesGrow st (envAssign st fuel i name v).1 := by
  intro fuel
  induction fuel with
  | zero => intro i name v; exact framesGrow_refl st
  | succ fuel ih =>
    intro i name v
    by_cases h : mapHas (getFrame st i).values name.lexeme
    · have heq : envAssign st (fuel + 1) i name v =
          (setFrame st i
            { getFrame st i with
              values := mapSet (getFrame st i).values name.lexeme v }, .ok ()) := by
        simp [envAssign, h]
      rw [heq]
      exact framesGrow_setFrame st i _ rfl
    · cases he : (getFrame st i).enclosing with
      | some j =>
        have heq : envAssign st (fuel + 1) i name v =
            envAssign st fuel j name v := by
          simp [envAssign, h, he]
        rw [heq]
        exact ih j name v
      | none =>
        have heq : envAssign st (fuel + 1) i name v =
            (st, .error ⟨name, undefinedMsg name⟩) := by
          simp [envAssign, h, he]
        rw [heq]
        exact framesGrow_refl st

theorem framesGrow_allocFrame (st : IState) (f : Frame) :
    framesGrow st (allocFrame st f).1 := by
  constructor
  · simp [allocFrame]
  · intro i hi
    unfold getFrame allocFrame
    simp only
    rw [listGetD_append_left st.frames [f] i emptyFrame hi]

theorem framesGrow_pushOut (st : IState) (s : String) :
    framesGrow st (pushOut st s) :=
  framesGrow_of_frames_eq rfl

/-- Every interpreter operation, at every fuel level, only grows the frame
    store and preserves every pre-existing frame's enclosing link. -/
theorem stepFns_framesGrow (fuel : Nat) :
    (∀ st e, framesGrow st ((stepFns fuel).evaluate st e).1) ∧
    (∀ st es, framesGrow st ((stepFns fuel).evalArgs st es).1) ∧
    (∀ st s, framesGrow st ((stepFns fuel).execute st s).1) ∧
    (∀ st l, framesGrow st ((stepFns fuel).executeSeq st l).1) ∧
    (∀ st f a, framesGrow st ((stepFns fuel).callFn st f a).1) ∧
    (∀ st l i, framesGrow st ((stepFns fuel).executeBlock st l i).1) := by
  induction fuel with
  | zero =>
    exact ⟨fun st _ => framesGrow_refl st, fun st _ => framesGrow_refl st,
      fun st _ => framesGrow_refl st, fun st _ => framesGrow_refl st,
      fun st _ _ => framesGrow_refl st, fun st _ _ => framesGrow_refl st⟩
  | succ fuel ih =>
    obtain ⟨ihE, ihA, ihS, ihQ, ihC, ihB⟩ := ih
    have hDisp : ∀ st cv paren vs,
        framesGrow st ((callDispatch (stepFns fuel) st cv paren vs).1) := by
      intro st cv paren vs
      cases cv <;> simp only [callDispatch]
      case vfun idx =>
        split
        · exact ihC st _ vs
        · exact framesGrow_refl st
      all_goals exact framesGrow_refl st
    have hE : ∀ st e, framesGrow st (((stepFns (fuel + 1)).evaluate st e).1) := by
      intro st e
      cases e with
      | literal v => exact framesGrow_refl st
      | grouping g => exact ihE st (.grouping g)
      | unary op r =>
        show framesGrow st ((evaluateF (stepFns fuel) st (.unary op r)).1)
        simp only [evaluateF]
        split
        · exact ihE st r
        · split
          · exact ihE st r
          · split
            · exact ihE st r
            · exact ihE st r
          · exact ihE st r
      | binary l op r =>
        show framesGrow st ((evaluateF (stepFns fuel) st (.binary l op r)).1)
        simp only [evaluateF]
        split
        · exact ihE st l
        · split
          · exact framesGrow_trans (ihE st l) (ihE _ r)
          · exact framesGrow_trans (ihE st l) (ihE _ r)
      | variable_ name =>
        show framesGrow st ((evaluateF (stepFns fuel) st (.variable_ name)).1)
        simp only [evaluateF]
        split <;> exact framesGrow_refl st
      | assign name value =>
        show framesGrow st ((evaluateF (stepFns fuel) st (.assign name value)).1)
        simp only [evaluateF]
        split
        · exact ihE st value
        · split
          · exact framesGrow_trans (ihE st value) (framesGrow_envAssign _ _ _ _ _)
          · exact framesGrow_trans (ihE st value) (framesGrow_envAssign _ _ _ _ _)
      | logical l op r =>
        show framesGrow st ((evaluateF (stepFns fuel) st (.logical l op r)).1)
        simp only [evaluateF]
        split
        · exact ihE st l
        · split
          · split
            · exact ihE st l
            · exact framesGrow_trans (ihE st l) (ihE _ r)
          · split
            · exact framesGrow_trans (ihE st l) (ihE _ r)
            · exact ihE st l
      | call callee paren args =>
        show framesGrow st ((evaluateF (stepFns fuel) st (.call callee paren args)).1)
        simp only [evaluateF]
        split
        · exact ihE st callee
        · split
          · exact framesGrow_trans (ihE st callee) (ihA _ args)
          · exact framesGrow_trans (ihE st callee)
              (framesGrow_trans (ihA _ args) (hDisp _ _ paren _))
    have hA : ∀ st es, framesGrow st (((stepFns (fuel + 1)).evalArgs st es).1) := by
      intro st es
      cases es with
      | nil => exact framesGrow_refl st
      | cons e rest =>
        show framesGrow st ((evalArgsF (stepFns fuel) st (e :: rest)).1)
        simp only [evalArgsF]
        split
        · exact ihE st e
        · split
          · exact framesGrow_trans (ihE st e) (ihA _ rest)
          · exact framesGrow_trans (ihE st e) (ihA _ rest)
    have hB : ∀ st l i, framesGrow st (((stepFns (fuel + 1)).executeBlock st l i).1) := by
      intro st l i
      show framesGrow st ((executeBlockF (stepFns fuel) st l i).1)
      simp only [executeBlockF]
      refine framesGrow_trans (@framesGrow_of_frames_eq st { st with env := i } rfl) ?_
      refine framesGrow_trans (ihQ { st with env := i } l) ?_
      exact framesGrow_of_frames_eq rfl
    have hC : ∀ st f a, framesGrow st (((stepFns (fuel + 1)).callFn st f a).1) := by
      intro st f a
      show framesGrow st ((callFnF (stepFns fuel) st f a).1)
      simp only [callFnF]
      split
      · exact framesGrow_trans (framesGrow_allocFrame st (callFrame f a)) (ihB _ f.body _)
      · exact framesGrow_trans (framesGrow_allocFrame st (callFrame f a)) (ihB _ f.body _)
    have hS : ∀ st s, framesGrow st (((stepFns (fuel + 1)).execute st s).1) := by
      intro st s
      cases s with
      | expression e =>
        show framesGrow st ((executeF (stepFns fuel) st (.expression e)).1)
        simp only [executeF]
        split
        · exact framesGrow_trans (ihE st e) (framesGrow_pushOut _ _)
        · exact ihE st e
      | print e =>
        show framesGrow st ((executeF (stepFns fuel) st (.print e)).1)
        simp only [executeF]
        split
        · exact framesGrow_trans (ihE st e) (framesGrow_pushOut _ _)
        · exact ihE st e
      | varDecl name init =>
        show framesGrow st ((executeF (stepFns fuel) st (.varDecl name init)).1)
        simp only [executeF]
        cases init with
        | some e =>
          simp only
          split
          · exact framesGrow_trans (ihE st e) (framesGrow_envDefine _ _ _)
          · exact ihE st e
        | none => exact framesGrow_envDefine st name.lexeme .vnil
      | block stmts =>
        show framesGrow st ((executeF (stepFns fuel) st (.block stmts)).1)
        simp only [executeF]
        exact framesGrow_trans
          (framesGrow_allocFrame st ⟨[], some st.env⟩) (ihB _ stmts _)
      | ifS c t e? =>
        show framesGrow st ((executeF (stepFns fuel) st (.ifS c t e?)).1)
        simp only [executeF]
        split
        · exact ihE st c
        · split
          · exact framesGrow_trans (ihE st c) (ihS _ t)
          · cases e? with
            | some e => exact framesGrow_trans (ihE st c) (ihS _ e)
            | none => exact ihE st c
      | whileS c b =>
        show framesGrow st ((executeModelled (stepFns fuel) st (.whileS c b)).1)
        simp only [executeModelled]
        split
        · exact ihE st c
        · split
          · split
            · exact framesGrow_trans (ihE st c)
                (framesGrow_trans (ihS _ b) (ihS _ (.whileS c b)))
            · exact framesGrow_trans (ihE st c) (ihS _ b)
            · exact framesGrow_trans (ihE st c) (ihS _ b)
          · exact ihE st c
      | breakS => exact framesGrow_refl st
      | funcDecl name params body =>
        show framesGrow st ((executeModelled (stepFns fuel) st (.funcDecl name params body)).1)
        simp only [executeModelled]
        exact framesGrow_trans
          (@framesGrow_of_frames_eq st
            { st with funcs := st.funcs ++
              [⟨name.lexeme, params.map (fun p => p.lexeme), body, st.env⟩] } rfl)
          (framesGrow_envDefine _ _ _)
      | returnS keyword value =>
        show framesGrow st ((executeModelled (stepFns fuel) st (.returnS keyword value)).1)
        simp only [executeModelled]
        cases value with
        | some e =>
          simp only
          split
          · exact ihE st e
          · exact ihE st e
        | none => exact framesGrow_refl st
    have hQ : ∀ st l, framesGrow st (((stepFns (fuel + 1)).executeSeq st l).1) := by
      intro st l
      cases l with
      | nil => exact framesGrow_refl st
      | cons s rest =>
        show framesGrow st ((executeSeqF (stepFns fuel) st (s :: rest)).1)
        simp only [executeSeqF]
        split
        · exact framesGrow_trans (ihS st s) (ihQ _ rest)
        · exact ihS st s
    exact ⟨hE, hA, hS, hQ, hC, hB⟩

/-- The frame a call allocated (at index `st.frames.length`) still encloses
    the captured closure when the call returns, whatever the body did. -/
theorem callFn_frame_encloses_closure (fuel : Nat) (st : IState)
    (f : FunData) (args : List LoxValue) :
    (getFrame ((stepFns (fuel + 1)).callFn st f args).1
      st.frames.length).enclosing = some f.closure := by
  show (getFrame ((callFnF (stepFns fuel) st f args).1) st.frames.length).enclosing =
    some f.closure
  have halloc : getFrame (allocFrame st (callFrame f args)).1 st.frames.length =
      callFrame f args := by
    unfold getFrame allocFrame
    simp only
    exact listGetD_append_self st.frames (callFrame f args) emptyFrame
  have hgrow := (stepFns_framesGrow fuel).2.2.2.2.2
    (allocFrame st (callFrame f args)).1 f.body (allocFrame st (callFrame f args)).2
  have hlt : st.frames.length < (allocFrame st (callFrame f args)).1.frames.length := by
    simp [allocFrame]
  have henc := hgrow.2 st.frames.length hlt
  simp only [callFnF]
  split <;> rw [henc, halloc] <;> rfl

/-- The frame a Block statement allocated (at index `st.frames.length`)
    still encloses the pre-block environment when the block finishes,
    whatever happened inside. -/
theorem block_frame_encloses_current (fuel : Nat) (st : IState)
    (stmts : List Stmt) :
    (getFrame ((stepFns (fuel + 1)).execute st (.block stmts)).1
      st.frames.length).enclosing = some st.env := by
  show (getFrame ((executeF (stepFns fuel) st (.block stmts)).1) st.frames.length).enclosing =
    some st.env
  simp only [executeF]
  have halloc : getFrame (allocFrame st ⟨[], some st.env⟩).1 st.frames.length =
      (⟨[], some st.env⟩ : Frame) := by
    unfold getFrame allocFrame
    simp only
    exact listGetD_append_self st.frames ⟨[], some st.env⟩ emptyFrame
  have hgrow := (stepFns_framesGrow fuel).2.2.2.2.2
    (allocFrame st ⟨[], some st.env⟩).1 stmts (allocFrame st ⟨[], some st.env⟩).2
  have hlt : st.frames.length < (allocFrame st ⟨[], some st.env⟩).1.frames.length := by
    simp [allocFrame]
  have henc := hgrow.2 st.frames.length hlt
  rw [henc, halloc]

/-- executeBlock restores the previous environment pointer at every fuel
    level and for every outcome — the rendering of the source's
    try/finally. -/
theorem stepFns_executeBlock_env (fuel : Nat) (st : IState)
    (stmts : List Stmt) (envIdx : Nat) :
    ((stepFns fuel).executeBlock st stmts envIdx).1.env = st.env := by
  cases fuel <;> rfl

theorem current_lt_of_not_atEnd (tokens : List Token) (st : PSt)
    (h : ¬ isAtEndT tokens st = true) : st.current < tokens.length := by
  by_contra hc
  push_neg at hc
  have hp : peekT tokens st = eofTok := listGetD_of_le tokens eofTok st.current hc
  simp [isAtEndT, hp, eofTok] at h

/-- The synchronize loop, given enough fuel, stops only at end of input,
    right after consuming a `;`, or at a statement-starting token. -/
theorem syncLoop_spec (tokens : List Token) :
    ∀ (fuel : Nat) (st : PSt), tokens.length - st.current < fuel →
      isAtEndT tokens (syncLoop tokens fuel st) = true ∨
      (previousT tokens (syncLoop tokens fuel st)).type = TokenType.SEMICOLON ∨
      startsStatement (peekT tokens (syncLoop tokens fuel st)).type = true := by
  intro fuel
  induction fuel with
  | zero => intro st h; omega
  | succ fuel ih =>
    intro st h
    by_cases h1 : isAtEndT tokens st = true
    · left; simp [syncLoop, h1]
    · by_cases h2 : (previousT tokens st).type = TokenType.SEMICOLON
      · right; left; simp [syncLoop, h1, h2]
      · by_cases h3 : startsStatement (peekT tokens st).type = true
        · right; right; simp [syncLoop, h1, h2, h3]
        · have hlt := current_lt_of_not_atEnd tokens st h1
          have hadv : advanceSt tokens st = { st with current := st.current + 1 } := by
            simp [advanceSt, h1]
          have hm : tokens.length - (st.current + 1) < fuel := by omega
          have := ih (advanceSt tokens st) (by rw [hadv]; simpa using hm)
          simpa [syncLoop, h1, h2, h3] using this

/-! ## Claim theorems. -/

/-- C1: the claim says resolveLocal records the distance to the FIRST
    (innermost) scope containing the name and that an entry is never
    rewritten.  The code's loop has no break: resolving the reference to `a`
    in `{ var a = 1; { var a = 2; a; } }` calls interpreter.resolve twice —
    depth 0 (innermost) then depth 1 — so the overwriting table insert leaves
    the entry at the OUTERMOST distance 1, not the claimed innermost 0. -/
theorem c1_resolveLocal_rewrites_to_outermost :
    (resolveProgram shadowProg).calls = [(aTok, 0), (aTok, 1)] ∧
    resolveLocalCalls [[("a", true)], [("a", true)]] "a" = [0, 1] ∧
    tableEntryAfter [[("a", true)], [("a", true)]] "a" = some 1 ∧
    innermostHit [[("a", true)], [("a", true)]] "a" = some 0 ∧
    ((resolveProgram shadowProg).calls.map (fun c => c.2)).foldl
      resolveInsert none = some 1 := by
  refine ⟨rfl, by decide, by decide, by decide, rfl⟩

/-- C2: executing a Function statement appends a function object whose
    closure is the interpreter's current environment; every call builds its
    frame enclosing that closure; the claim's counter returns 1, 2, 3 on
    three successive calls; and the makeCounter variant — whose `i` lives in
    makeCounter's call frame, not in globals — also returns 1, 2, 3, with the
    inner function's closure being frame 1 (makeCounter's frame) and the
    call frames of `c()` enclosing it. -/
theorem c2_closure_capture :
    (∀ (fuel : Nat) (st : IState) (name : Token) (params : List Token)
        (body : List Stmt),
      ((stepFns (fuel + 1)).execute st (.funcDecl name params body)).1.funcs =
        st.funcs ++ [⟨name.lexeme, params.map (fun p => p.lexeme), body, st.env⟩])
  ∧ (∀ (f : FunData) (args : List LoxValue),
      (callFrame f args).enclosing = some f.closure)
  ∧ (∀ (fuel : Nat) (st : IState) (f : FunData) (args : List LoxValue),
      (getFrame ((stepFns (fuel + 1)).callFn st f args).1
        st.frames.length).enclosing = some f.closure)
  ∧ ((((stepFns 60).executeSeq initState makeCounterDecls).1).funcs.map
      (fun f => f.closure) = [0, 1])
  ∧ (((stepFns 60).evaluate ((stepFns 60).executeSeq initState
        makeCounterDecls).1 cCall).1.frames.map (fun f => f.enclosing) =
      [none, some 0, some 1])
  ∧ (((stepFns 50).evaluate ((stepFns 50).executeSeq initState
        counterDecls).1 incCall).2 = .ok (.vnum 1)
     ∧ ((stepFns 50).evaluate ((stepFns 50).evaluate ((stepFns 50).executeSeq
          initState counterDecls).1 incCall).1 incCall).2 = .ok (.vnum 2)
     ∧ ((stepFns 50).evaluate ((stepFns 50).evaluate ((stepFns 50).evaluate
          ((stepFns 50).executeSeq initState counterDecls).1 incCall).1
          incCall).1 incCall).2 = .ok (.vnum 3))
  ∧ (((stepFns 60).evaluate ((stepFns 60).executeSeq initState
        makeCounterDecls).1 cCall).2 = .ok (.vnum 1)
     ∧ ((stepFns 60).evaluate ((stepFns 60).evaluate ((stepFns 60).executeSeq
          initState makeCounterDecls).1 cCall).1 cCall).2 = .ok (.vnum 2)
     ∧ ((stepFns 60).evaluate ((stepFns 60).evaluate ((stepFns 60).evaluate
          ((stepFns 60).executeSeq initState makeCounterDecls).1 cCall).1
          cCall).1 cCall).2 = .ok (.vnum 3)) := by
  refine ⟨?_, fun f args => rfl, callFn_frame_encloses_closure, by decide, rfl,
    ⟨rfl, rfl, rfl⟩, ⟨rfl, rfl, rfl⟩⟩
  intro fuel st name params body
  simp [stepFns, executeF, executeModelled, envDefine, setFrame]

/-- C3: a user-function body's catch yields a return unwind's value and a
    body without a return yields nil, but the catch block swallows every
    other thrown value instead of rethrowing: the body of
    `fun f() { 1 - "a"; }` raises RuntimeError "Operands must be numbers."
    (first conjunct), yet calling `f` yields nil with no error escaping
    (second conjunct), contrary to the claim that it propagates. -/
theorem c3_call_swallows_runtime_errors :
    ((stepFns 50).evaluate ((stepFns 50).executeSeq initState swallowDecls).1
        (.binary (numLit 1) minusTok (.literal (.str "a")))).2 =
      .error (.rte ⟨minusTok, "Operands must be numbers."⟩) ∧
    ((stepFns 50).evaluate ((stepFns 50).executeSeq initState
        swallowDecls).1 fCall).2 = .ok .vnil ∧
    ((stepFns 50).evaluate ((stepFns 50).executeSeq initState
        retDecls).1 gCall).2 = .ok (.vnum 7) ∧
    ((stepFns 50).evaluate ((stepFns 50).executeSeq initState
        noRetDecls).1 hCall).2 = .ok .vnil := by
  exact ⟨rfl, rfl, rfl, rfl⟩

/-- C4: executing a Block pushes a fresh environment enclosing the current
    one and the current-environment pointer is restored on every exit path:
    executeBlock restores it for every fuel, every state, every statement
    list (hence under normal completion, runtime errors and unwinds alike),
    and so does a Block statement; concretely, a block whose body raises a
    runtime error and a block left by a break unwind both restore env 0 and
    both allocated exactly one fresh frame enclosing the global frame. -/
theorem c4_block_restores_environment :
    (∀ (fuel : Nat) (st : IState) (stmts : List Stmt) (envIdx : Nat),
      ((stepFns fuel).executeBlock st stmts envIdx).1.env = st.env)
  ∧ (∀ (fuel : Nat) (st : IState) (stmts : List Stmt),
      ((stepFns (fuel + 1)).execute st (.block stmts)).1.env = st.env)
  ∧ (∀ (fuel : Nat) (st : IState) (stmts : List Stmt),
      (getFrame ((stepFns (fuel + 1)).execute st (.block stmts)).1
        st.frames.length).enclosing = some st.env)
  ∧ ((runProgram 50 blockErrProg).1.env = 0
     ∧ (runProgram 50 blockErrProg).2 =
        some ⟨minusTok, "Operands must be numbers."⟩
     ∧ (runProgram 50 blockErrProg).1.frames.map (fun f => f.enclosing) =
        [none, some 0])
  ∧ ((runProgram 50 whileBreakProg).1.env = 0
     ∧ (runProgram 50 whileBreakProg).1.output = ["9"]
     ∧ (runProgram 50 whileBreakProg).2 = none
     ∧ (runProgram 50 whileBreakProg).1.frames.map (fun f => f.enclosing) =
        [none, some 0]) := by
  refine ⟨stepFns_executeBlock_env, ?_, block_frame_encloses_current,
    ⟨by decide, by decide, rfl⟩, ⟨by decide, by decide, by decide, rfl⟩⟩
  intro fuel st stmts
  have h := stepFns_executeBlock_env fuel
    { st with frames := st.frames ++ [⟨[], some st.env⟩] } stmts
    st.frames.length
  simpa [stepFns, executeF, allocFrame] using h

/-- C5 counterexample: the claim says a string plus a non-string, in either
    order, raises "Operands must be two numbers or two strings." — but the
    source evaluates `"a" + 1` to the string "a1" and `1 + "a"` to "1a"
    (and `"a" + nil` to "anull"), raising nothing. -/
theorem c5_plus_string_coercion_counterexample :
    ((stepFns 2).evaluate initState
        (.binary (.literal (.str "a")) plusTok (numLit 1))).2 =
      .ok (.vstr "a1") ∧
    ((stepFns 2).evaluate initState
        (.binary (numLit 1) plusTok (.literal (.str "a")))).2 =
      .ok (.vstr "1a") ∧
    ((stepFns 2).evaluate initState
        (.binary (.literal (.str "a")) plusTok (.literal .nil))).2 =
      .ok (.vstr "anull") ∧
    (Except.ok (LoxValue.vstr "a1") ≠
      (Except.error (.rte ⟨plusTok, plusErrMsg⟩) :
        Except Exc LoxValue)) := by
  refine ⟨rfl, rfl, rfl, fun h => by simp at h⟩

/-- C5 amended: `+` on two numbers is the numeric sum; when at least one
    operand is a string the result is the concatenation of the operands'
    JS string coercions; only when the operands are neither both numbers nor
    at least one a string is "Operands must be two numbers or two strings."
    raised. -/
theorem c5_plus_amended :
    (∀ (op : Token) (x y : Int) (st : IState) (fuel : Nat),
      op.type = TokenType.PLUS →
      ((stepFns (fuel + 2)).evaluate st
          (.binary (.literal (.num x)) op (.literal (.num y)))).2 =
        .ok (.vnum (x + y)))
  ∧ (∀ (op : Token) (a b : Lit) (st : IState) (fuel : Nat),
      op.type = TokenType.PLUS →
      (isStrV (litToValue a) || isStrV (litToValue b)) = true →
      ((stepFns (fuel + 2)).evaluate st
          (.binary (.literal a) op (.literal b))).2 =
        .ok (.vstr (jsToString st (litToValue a) ++ jsToString st (litToValue b))))
  ∧ (∀ (op : Token) (a b : Lit) (st : IState) (fuel : Nat),
      op.type = TokenType.PLUS →
      (isNumV (litToValue a) && isNumV (litToValue b)) = false →
      (isStrV (litToValue a) || isStrV (litToValue b)) = false →
      ((stepFns (fuel + 2)).evaluate st
          (.binary (.literal a) op (.literal b))).2 =
        .error (.rte ⟨op, plusErrMsg⟩)) := by
  refine ⟨?_, ?_, ?_⟩
  · intro op x y st fuel hop
    simp [stepFns, evaluateF, binaryResult, hop, litToValue, isNumV]
  · intro op a b st fuel hop hstr
    cases a <;> cases b <;>
      simp_all [stepFns, evaluateF, binaryResult, litToValue, isNumV, isStrV]
  · intro op a b st fuel hop hnum hstr
    cases a <;> cases b <;>
      simp_all [stepFns, evaluateF, binaryResult, litToValue, isNumV, isStrV]

/-- C5 witness for the amended theorem: 2 + 3 evaluates to 5; "a" + 1
    concatenates to "a1"; nil + true raises the two-numbers-or-two-strings
    error. -/
theorem c5_plus_amended_witness :
    ((stepFns 2).evaluate initState
        (.binary (.literal (.num 2)) plusTok (.literal (.num 3)))).2 =
      .ok (.vnum 5) ∧
    ((stepFns 2).evaluate initState
        (.binary (.literal (.str "a")) plusTok (.literal (.num 1)))).2 =
      .ok (.vstr ("a" ++ "1")) ∧
    ((stepFns 2).evaluate initState
        (.binary (.literal .nil) plusTok (.literal (.bool true)))).2 =
      .error (.rte ⟨plusTok, plusErrMsg⟩) :=
  ⟨c5_plus_amended.1 plusTok 2 3 initState 0 rfl,
   c5_plus_amended.2.1 plusTok (.str "a") (.num 1) initState 0 rfl rfl,
   c5_plus_amended.2.2 plusTok .nil (.bool true) initState 0 rfl rfl rfl⟩

/-- C6: with all three clauses present the parser desugars
    `for (var i = 0; i < 3; i = i + 1) print i;` into exactly
    Block{[init, While{cond, Block{[body, Expression(increment)]}}]}
    with no error — but with an empty increment clause,
    `for (var i = 0; i < 3;) print i;`, the source (which tests
    `check(SEMICOLON)` instead of `check(RIGHT_PAREN)`) tries to parse `)`
    as an expression, reports "Expect expression." at ')', and the whole
    `for` contributes only a null entry, contrary to the claim that a
    missing increment is simply omitted. -/
theorem c6_for_desugars_but_empty_increment_fails :
    parseProgram forFullToks = (⟨20, []⟩, [some forFullExpected]) ∧
    parseProgram forNoIncToks =
      (⟨15, ["[line 1] Error at ')': Expect expression."]⟩,
       [none, some (.print (.variable_ iTok))]) :=
  ⟨rfl, rfl⟩

/-- C7: a single `or` parses into a Logical node, but `a or b or c;` does
    not: or() returns the first Logical node from inside its while loop, the
    second `or` is left unconsumed, and the statement fails with
    "Expect ';' after value" at the second `or`, producing a null entry —
    contrary to the claim that chains of `or`/`and` parse into
    left-associated Logical nodes without a parse error.  The `and` chain
    fails identically. -/
theorem c7_or_and_chains_fail_to_parse :
    parseProgram orSingleToks =
      (⟨4, []⟩, [some (.expression (.logical (.variable_ (idTok "a")) orTok
        (.variable_ (idTok "b"))))]) ∧
    parseProgram orChainToks =
      (⟨6, ["[line 1] Error at 'or': Expect ';' after value"]⟩, [none]) ∧
    parseProgram andChainToks =
      (⟨6, ["[line 1] Error at 'and': Expect ';' after value"]⟩, [none]) :=
  ⟨rfl, rfl, rfl⟩

/-- C8 counterexample: parsing `+; print 1;` puts a null entry — not a
    well-formed statement node — into the returned list at the position of
    the offending declaration, so the list does not contain only well-formed
    statement nodes. -/
theorem c8_null_entry_counterexample :
    (parseProgram c8Toks).2 = [none, some (.print (.literal (.num 1)))] ∧
    none ∈ (parseProgram c8Toks).2 := by
  have h : (parseProgram c8Toks).2 = [none, some (.print (.literal (.num 1)))] := rfl
  exact ⟨h, by rw [h]; exact List.mem_cons_self _ _⟩

/-- C8 amended: on a parse error the parser discards tokens until a `;` is
    consumed or the next token begins a statement (class, fun, var, for, if,
    while, print, return) — proved for synchronize on every token list and
    start state — and resumes at the next declaration; but the offending
    declaration contributes a null entry to the returned statement list
    (shown on `+; print 1;`: the error is reported at '+', parsing resumes
    at `print 1;`, and the list is [null, Print 1]). -/
theorem c8_synchronize_amended :
    (∀ (tokens : List Token) (st : PSt),
      isAtEndT tokens (synchronize tokens st) = true ∨
      (previousT tokens (synchronize tokens st)).type = TokenType.SEMICOLON ∨
      startsStatement (peekT tokens (synchronize tokens st)).type = true)
  ∧ (parseProgram c8Toks).1.errors =
      ["[line 1] Error at '+': Expect expression."]
  ∧ (parseProgram c8Toks).2 = [none, some (.print (.literal (.num 1)))] := by
  refine ⟨?_, rfl, rfl⟩
  intro tokens st
  exact syncLoop_spec tokens (tokens.length + 1) (advanceSt tokens st)
    (by omega)

/-- C9 counterexample: resolving `var a = "outer"; { var a = a; }` reports
    exactly one static error, and its message is
    "Cannot read local variable in its own initialization." — not the
    claimed "Cannot read local variable in its own initializer.". -/
theorem c9_message_counterexample :
    (resolveProgram ownInitProg).errors =
      [(aTok, "Cannot read local variable in its own initialization.")] ∧
    "Cannot read local variable in its own initialization." ≠
      "Cannot read local variable in its own initializer." :=
  ⟨rfl, by decide⟩

/-- C9 amended: whenever the scope stack is nonempty and the innermost scope
    maps the name to false, visitVariableExpr reports a static error whose
    message is exactly "Cannot read local variable in its own
    initialization."; the ownInitProg program triggers exactly that error. -/
theorem c9_own_initializer_message :
    (∀ (st : RSt) (name : Token),
      0 < st.scopes.length →
      scopeGet (st.scopes.getD (st.scopes.length - 1) []) name.lexeme =
        some false →
      (visitVariableExprR st name).errors =
        st.errors ++
          [(name, "Cannot read local variable in its own initialization.")])
  ∧ (resolveProgram ownInitProg).errors =
      [(aTok, "Cannot read local variable in its own initialization.")] := by
  refine ⟨?_, rfl⟩
  intro st name h1 h2
  simp only [visitVariableExprR, recordResolveLocal, rError, ownInitMsg]
  rw [if_pos ⟨h1, h2⟩]

/-- C9 witness: the amended theorem applied to a scope stack whose innermost
    scope maps "a" to false. -/
theorem c9_own_initializer_message_witness :
    (visitVariableExprR ⟨[[("a", false)]], [], [], false⟩ aTok).errors =
      [(aTok, "Cannot read local variable in its own initialization.")] := by
  have h := c9_own_initializer_message.1 ⟨[[("a", false)]], [], [], false⟩ aTok
    (by decide) (by decide)
  simpa using h

/-- C10: evaluating an Assign expression evaluates the right-hand side, then
    mutates the binding through the environment chain, and the Assign
    expression itself evaluates to the assigned value; afterwards the chain
    reads the name back as that value. -/
theorem c10_assign_evaluates_to_value (fuel : Nat) (st st1 st2 : IState)
    (name : Token) (e : Expr) (v : LoxValue)
    (h1 : (stepFns fuel).evaluate st e = (st1, .ok v))
    (h2 : envAssign st1 st1.frames.length st1.env name v = (st2, .ok ())) :
    (stepFns (fuel + 1)).evaluate st (.assign name e) = (st2, .ok v) ∧
    envGet st2 st2.frames.length st2.env name = .ok v := by
  constructor
  · simp [stepFns, evaluateF, h1, h2]
  · have hg := envAssign_get st1 st1.frames.length st1.env name v st2 h2
    have hp := envAssign_preserves st1 st1.frames.length st1.env name v
    rw [h2] at hp
    have henv : st2.env = st1.env := hp.1
    have hlen : st2.frames.length = st1.frames.length := hp.2.1
    rw [henv, hlen]
    exact hg

/-- The state right after `var a = 1;` from the initial state. -/
def c10St : IState := ⟨[⟨[("a", .vnum 1)], none⟩], [], [], 0⟩

/-- The state after `a = 5` has mutated the binding. -/
def c10St' : IState := ⟨[⟨[("a", .vnum 5)], none⟩], [], [], 0⟩

/-- C10 witness: `a = 5` with `a` bound to 1 evaluates to 5 and leaves `a`
    reading back as 5; end to end, `var a = 1; print a = 5;` prints "5". -/
theorem c10_assign_evaluates_to_value_witness :
    ((stepFns 2).evaluate c10St (.assign aTok (numLit 5)) = (c10St', .ok (.vnum 5)) ∧
      envGet c10St' c10St'.frames.length c10St'.env aTok = .ok (.vnum 5)) ∧
    (runProgram 50 [.varDecl aTok (some (numLit 1)),
      .print (.assign aTok (numLit 5))]).1.output = ["5"] :=
  ⟨c10_assign_evaluates_to_value 1 c10St c10St c10St' aTok (numLit 5)
      (.vnum 5) rfl rfl,
   by decide⟩

end Lox
